import Mathlib

/-!
# Event subscription and dispatch (`src/zap/EventManager.cpp`)

A shallow embedding of `Zap::EventManager`: the three per-event-type tables
(`subscriptions`, `pendingSubscriptions`, `pendingUnsubscriptions`), the staging
operations `subscribe` / `unsubscribe` / `unsubscribeImmediate`, the commit
`update`, the pause controller, the `fireEvent` overloads and the lifecycle of the
singleton (`get`, `shutdown`, the constructor).

Conventions:
* C++ pointers are natural numbers compared with `==`; `NULL` is `0`.
* `TNL::Vector<T>` is `List T`; index `i` of the vector is position `i` of the list.
* The arrays indexed by `EventType` are functions from `EventType`.
* Scripts are external: whether a script defines a handler (`loadFunction`) and what
  a handler does when run (`runFunction`) are parameters of the operations.
* The Lua stack and the log are not part of the state; what a dispatch pushes, runs,
  logs and deletes is recorded in an effect trace.
-/

namespace Zap

/-- A C++ pointer, compared by address. -/
abbrev Ptr := Nat

/-- The null pointer. -/
def NULL : Ptr := 0

/-- Address of a script runner (a bot or a level generator). -/
abbrev LuaScriptRunner := Ptr

/-- Modelled from the spec: the `EVENT_TABLE` list of `EventManager.h` is missing from
the sources. These are the thirteen event kinds of the data model (Tick, ShipSpawned,
ShipKilled, PlayerJoined, PlayerLeft, ChatMessage, ScoreChanged, NexusOpened,
NexusClosed, ZoneEntered, ZoneLeft, CoreDestroyed, PlayerTeamChanged); `TickEvent` is
the one the source names. -/
inductive EventType where
  | TickEvent
  | ShipSpawnedEvent
  | ShipKilledEvent
  | PlayerJoinedEvent
  | PlayerLeftEvent
  | ChatMessageEvent
  | ScoreChangedEvent
  | NexusOpenedEvent
  | NexusClosedEvent
  | ShipEnteredZoneEvent
  | ShipLeftZoneEvent
  | CoreDestroyedEvent
  | PlayerTeamChangedEvent
  deriving DecidableEq, Repr

/-- Modelled from the spec: the `ScriptContext` enumeration is declared in a header that
is missing from the sources. `RobotContext` is the bot context the source tests for; the
other two stand for a level generator and for any further non-bot context. -/
inductive ScriptContext where
  | RobotContext
  | LevelgenContext
  | UnknownContext
  deriving DecidableEq, Repr

/-- The `struct Subscription` of EventManager.cpp. -/
structure Subscription where
  subscriber : LuaScriptRunner
  context : ScriptContext
  deriving DecidableEq, Repr

/-- Modelled from the spec: `Vector::erase_fast` (tnlVector.h) is missing from the sources.
It removes the element at `index` by moving the last element of the vector into that slot
and shrinking the vector by one; the order of the remaining elements is not kept.
The index is expected to be in range. -/
def erase_fast {α : Type} (v : List α) (index : Nat) : List α :=
  match v.getLast? with
  | none => v
  | some last => (v.set index last).dropLast

/-- Index found by the loop `for(i = 0; i < v.size(); i++) if(p(v[i])) ...`: the first
position whose element satisfies `p`. -/
def firstIndex {α : Type} (p : α → Bool) : List α → Option Nat
  | [] => none
  | a :: rest => if p a then some 0 else (firstIndex p rest).map (fun i => i + 1)

/-- The shared loop of the three `removeFrom...List` helpers: `erase_fast` the first
element satisfying `p`, then return; do nothing when there is none. -/
def removeFirst {α : Type} (p : α → Bool) (v : List α) : List α :=
  match firstIndex p v with
  | some i => erase_fast v i
  | none => v

/-- Replace entry `k` of an array indexed by event type. -/
def setAt {α : Type} (table : EventType → α) (k : EventType) (x : α) : EventType → α :=
  fun i => if i = k then x else table i

/-- The state of the event manager: the file-level statics `anyPending`,
`subscriptions`, `pendingSubscriptions`, `pendingUnsubscriptions`, and the members
`mIsPaused`, `mStepCount` (an `S32`). -/
structure EventManager where
  anyPending : Bool
  subscriptions : EventType → List Subscription
  pendingSubscriptions : EventType → List Subscription
  pendingUnsubscriptions : EventType → List LuaScriptRunner
  mIsPaused : Bool
  mStepCount : Int

namespace EventManager

/-- The state at program start and after the constructor has run: empty tables,
`anyPending = false`, `mIsPaused = false`, `mStepCount = -1`. -/
def initial : EventManager where
  anyPending := false
  subscriptions := fun _ => []
  pendingSubscriptions := fun _ => []
  pendingUnsubscriptions := fun _ => []
  mIsPaused := false
  mStepCount := -1

/-- Source `EventManager::isSubscribed`. -/
def isSubscribed (em : EventManager) (subscriber : LuaScriptRunner) (eventType : EventType) : Bool :=
  (em.subscriptions eventType).any (fun s => s.subscriber == subscriber)

/-- Source `EventManager::isPendingSubscribed`. -/
def isPendingSubscribed (em : EventManager) (subscriber : LuaScriptRunner)
    (eventType : EventType) : Bool :=
  (em.pendingSubscriptions eventType).any (fun s => s.subscriber == subscriber)

/-- Source `EventManager::isPendingUnsubscribed`. -/
def isPendingUnsubscribed (em : EventManager) (subscriber : LuaScriptRunner)
    (eventType : EventType) : Bool :=
  (em.pendingUnsubscriptions eventType).any (fun s => s == subscriber)

/-- Source `EventManager::removeFromPendingSubscribeList`. -/
def removeFromPendingSubscribeList (em : EventManager) (subscriber : LuaScriptRunner)
    (eventType : EventType) : EventManager :=
  { em with
    pendingSubscriptions :=
      setAt em.pendingSubscriptions eventType
        (removeFirst (fun s => s.subscriber == subscriber) (em.pendingSubscriptions eventType)) }

/-- Source `EventManager::removeFromPendingUnsubscribeList`. -/
def removeFromPendingUnsubscribeList (em : EventManager) (subscriber : LuaScriptRunner)
    (eventType : EventType) : EventManager :=
  { em with
    pendingUnsubscriptions :=
      setAt em.pendingUnsubscriptions eventType
        (removeFirst (fun s => s == subscriber) (em.pendingUnsubscriptions eventType)) }

/-- Source `EventManager::removeFromSubscribedList`. -/
def removeFromSubscribedList (em : EventManager) (subscriber : LuaScriptRunner)
    (eventType : EventType) : EventManager :=
  { em with
    subscriptions :=
      setAt em.subscriptions eventType
        (removeFirst (fun s => s.subscriber == subscriber) (em.subscriptions eventType)) }

/-- Source `EventManager::subscribe`. `loadFunction subscriber eventType` is the answer of
`LuaScriptRunner::loadFunction` for the handler of `eventType` in the subscriber's script.
`failSilently` only selects whether the error line is printed, which is outside the state. -/
def subscribe (em : EventManager) (loadFunction : LuaScriptRunner → EventType → Bool)
    (subscriber : LuaScriptRunner) (eventType : EventType) (context : ScriptContext)
    (failSilently : Bool) : EventManager :=
  if em.isSubscribed subscriber eventType || em.isPendingSubscribed subscriber eventType then
    em
  else
    let ok := loadFunction subscriber eventType
    if !ok then
      -- `if(!failSilently) logprintf(...)`: the state is the same with or without the line
      if !failSilently then em else em
    else
      let em1 := em.removeFromPendingUnsubscribeList subscriber eventType
      let s : Subscription := { subscriber := subscriber, context := context }
      { em1 with
        pendingSubscriptions :=
          setAt em1.pendingSubscriptions eventType (em1.pendingSubscriptions eventType ++ [s])
        anyPending := true }

/-- Source `EventManager::unsubscribe`. -/
def unsubscribe (em : EventManager) (subscriber : LuaScriptRunner) (eventType : EventType) :
    EventManager :=
  if (em.isSubscribed subscriber eventType || em.isPendingSubscribed subscriber eventType)
      && !em.isPendingUnsubscribed subscriber eventType then
    let em1 := em.removeFromPendingSubscribeList subscriber eventType
    { em1 with
      pendingUnsubscriptions :=
        setAt em1.pendingUnsubscriptions eventType
          (em1.pendingUnsubscriptions eventType ++ [subscriber])
      anyPending := true }
  else
    em

/-- Source `EventManager::unsubscribeImmediate`. -/
def unsubscribeImmediate (em : EventManager) (subscriber : LuaScriptRunner)
    (eventType : EventType) : EventManager :=
  ((em.removeFromSubscribedList subscriber eventType).removeFromPendingSubscribeList
    subscriber eventType).removeFromPendingUnsubscribeList subscriber eventType

/-- The inner loop of the first pass of `update` for one event type:
`removeFromSubscribedList(pendingUnsubscriptions[i][j], i)` for `j = 0, 1, ...`. -/
def applyUnsubscriptions (live : List Subscription) (pending : List LuaScriptRunner) :
    List Subscription :=
  pending.foldl (fun l x => removeFirst (fun s => s.subscriber == x) l) live

/-- Source `EventManager::update`. Each of the three passes over `i < EventTypes` touches
only the vectors of event type `i`, so the new tables are given entry by entry. -/
def update (em : EventManager) : EventManager :=
  if em.anyPending then
    { em with
      subscriptions := fun i =>
        applyUnsubscriptions (em.subscriptions i) (em.pendingUnsubscriptions i)
          ++ em.pendingSubscriptions i
      pendingSubscriptions := fun _ => []
      pendingUnsubscriptions := fun _ => []
      anyPending := false }
  else
    em

/-- Source `EventManager::suppressEvents`. -/
def suppressEvents (em : EventManager) (eventType : EventType) : Bool :=
  if (em.subscriptions eventType).length == 0 then
    true
  else
    em.mIsPaused && decide (em.mStepCount ≤ 0)

/-- Source `EventManager::setPaused`. -/
def setPaused (em : EventManager) (isPaused : Bool) : EventManager :=
  { em with mIsPaused := isPaused }

/-- Source `EventManager::togglePauseStatus`. -/
def togglePauseStatus (em : EventManager) : EventManager :=
  { em with mIsPaused := !em.mIsPaused }

/-- Source `EventManager::isPaused`. -/
def isPaused (em : EventManager) : Bool :=
  em.mIsPaused

/-- Source `EventManager::addSteps`. -/
def addSteps (em : EventManager) (steps : Int) : EventManager :=
  if em.mIsPaused then { em with mStepCount := steps } else em

end EventManager

/-- Value of an `S32` after an arithmetic step: the result reduced to the 32-bit
two's-complement range. -/
def wrapS32 (x : Int) : Int :=
  (x + 2147483648) % 4294967296 - 2147483648

/-- The message carried by a `LuaException`. -/
abbrev LuaException := String

/-- A value pushed on the Lua stack as a handler argument. -/
inductive LuaValue where
  | integer (n : Int)
  | string (s : String)
  | boolean (b : Bool)
  | nil
  | object (p : Ptr)
  deriving DecidableEq, Repr

/-- What a dispatch does to the world outside the event manager state, in order. -/
inductive Effect where
  /-- An argument pushed on the Lua stack (`lua_push...`, `obj->push(L)`). -/
  | push (v : LuaValue)
  /-- The call `setScriptContext(L, context); scriptRunner->runFunction(function, 0)` in
  `fire`, where `function` is the handler name of `eventType`. -/
  | run (scriptRunner : LuaScriptRunner) (eventType : EventType) (context : ScriptContext)
  /-- The line `logprintf("Error firing event %s: %s", ...)` of `fire`. -/
  | logFire (eventType : EventType) (msg : String)
  /-- The line `subscriber->logError("Error handling event %s: %s. Shutting bot down.", ...)`. -/
  | logBotError (subscriber : LuaScriptRunner) (eventType : EventType) (msg : String)
  /-- The line `logprintf(LogConsumer::LogError, "Error firing event %s: %s", ...)`. -/
  | logLevelgenError (eventType : EventType) (msg : String)
  /-- The statement `delete subscriber.subscriber`. -/
  | delete (subscriber : LuaScriptRunner)
  /-- The call `clearStack(L)`. -/
  | clearStack
  deriving DecidableEq, Repr

/-- How a call of `LuaScriptRunner::runFunction` ends: it returns its `bool` (true when
there was an error) or a `LuaException` leaves it. -/
inductive RunResult where
  | returned (error : Bool)
  | threw (e : LuaException)
  deriving DecidableEq, Repr

/-- The scripts: what running the handler of `eventType` on a script runner does. A handler
may call back into the event manager (subscribe, unsubscribe, addSteps, ...), so it is a
transformer of the event manager state together with the way the call ends. -/
abbrev Scripts := LuaScriptRunner → EventType → EventManager → RunResult × EventManager

/-- The event manager state together with the effects performed so far. -/
structure World where
  em : EventManager
  trace : List Effect

/-- Append one effect to the trace. -/
def World.emit (w : World) (e : Effect) : World :=
  { w with trace := w.trace ++ [e] }

/-- Push a list of arguments on the Lua stack, first to last. -/
def World.pushAll (w : World) (args : List LuaValue) : World :=
  { w with trace := w.trace ++ args.map Effect.push }

/-- How a C++ call that may throw ends: normally with a value, or by a `LuaException`. -/
inductive Completion (α : Type) where
  | normal (value : α) (w : World)
  | threw (e : LuaException) (w : World)

/-- How a `fireEvent` call ends. `fault` is an out-of-range vector access; `unfinished`
means the bound on loop iterations given to the model was used up. -/
inductive Outcome where
  | returned (w : World)
  | threw (e : LuaException) (w : World)
  | fault (w : World)
  | unfinished

/-- The world in which a `fireEvent` call returned, if it did. -/
def Outcome.world? : Outcome → Option World
  | .returned w => some w
  | _ => none

/-- The script runners whose handler was run, with the context each was run under,
in the order of the calls. -/
def invocations : List Effect → List Subscription
  | [] => []
  | .run r _ c :: rest => { subscriber := r, context := c } :: invocations rest
  | _ :: rest => invocations rest

/-- The script runners deleted, in order. -/
def deletions : List Effect → List LuaScriptRunner
  | [] => []
  | .delete r :: rest => r :: deletions rest
  | _ :: rest => deletions rest

/-- The statement `scriptRunner->runFunction(function, 0)` under `setScriptContext(L, context)`:
the call is recorded, the script acts on the state, and the call returns or throws. -/
def callRunFunction (scripts : Scripts) (scriptRunner : LuaScriptRunner) (eventType : EventType)
    (context : ScriptContext) (w : World) : Completion Bool :=
  let w1 := w.emit (.run scriptRunner eventType context)
  match scripts scriptRunner eventType w1.em with
  | (.returned error, em1) => .normal error { w1 with em := em1 }
  | (.threw e, em1) => .threw e { w1 with em := em1 }

/-- Source `EventManager::fire`: the `try` runs the handler, the `catch(LuaException &e)`
logs and returns false. -/
def fire (scripts : Scripts) (scriptRunner : LuaScriptRunner) (eventType : EventType)
    (context : ScriptContext) (w : World) : Completion Bool :=
  match callRunFunction scripts scriptRunner eventType context w with
  | .normal error w1 => .normal error w1
  | .threw e w1 => .normal false (w1.emit (.logFire eventType e))

/-- Source `EventManager::handleEventFiringError`. The effect of the deleted runner's
destructor on the tables is not part of the sources and is not modelled. -/
def handleEventFiringError (w : World) (subscriber : Subscription) (eventType : EventType)
    (errorMsg : String) : World :=
  let w1 :=
    if subscriber.context = ScriptContext.RobotContext then
      (w.emit (.logBotError subscriber.subscriber eventType errorMsg)).emit
        (.delete subscriber.subscriber)
    else
      w.emit (.logLevelgenError eventType errorMsg)
  w1.emit .clearStack

/-- The loop `for(S32 i = 0; i < subscriptions[eventType].size(); i++)` shared by the
`fireEvent` overloads that have no `try`: the vector and its size are read again on every
iteration; an entry whose subscriber satisfies `skip` is passed over (`continue`);
otherwise `args` are pushed and `fire` is called, its result being ignored. An exception
leaving `fire` would leave the loop and the overload. `fuel` bounds the iterations. -/
def dispatchLoop (scripts : Scripts) (eventType : EventType) (skip : LuaScriptRunner → Bool)
    (args : List LuaValue) : Nat → Nat → World → Outcome
  | 0, _, _ => .unfinished
  | fuel + 1, i, w =>
    match (w.em.subscriptions eventType)[i]? with
    | none => .returned w
    | some sub =>
      if skip sub.subscriber then
        dispatchLoop scripts eventType skip args fuel (i + 1) w
      else
        match fire scripts sub.subscriber eventType sub.context (w.pushAll args) with
        | .normal _ w1 => dispatchLoop scripts eventType skip args fuel (i + 1) w1
        | .threw e w1 => .threw e w1

/-- The loop of `fireEvent(EventType, Ship *, Zone *)`, whose body is a `try` with a
`catch(LuaException &e)` that reads `subscriptions[eventType][i]` again, calls
`handleEventFiringError` and `clearStack`, and returns. -/
def zoneLoop (scripts : Scripts) (eventType : EventType) (args : List LuaValue) :
    Nat → Nat → World → Outcome
  | 0, _, _ => .unfinished
  | fuel + 1, i, w =>
    match (w.em.subscriptions eventType)[i]? with
    | none => .returned w
    | some sub =>
      match fire scripts sub.subscriber eventType sub.context (w.pushAll args) with
      | .normal _ w1 => zoneLoop scripts eventType args fuel (i + 1) w1
      | .threw e w1 =>
        match (w1.em.subscriptions eventType)[i]? with
        | none => .fault w1
        | some sub1 => .returned ((handleEventFiringError w1 sub1 eventType e).emit .clearStack)

/-- The argument pushed for a pointer that may be null: the object, or nil. -/
def pushOrNil (p : Ptr) : LuaValue :=
  if p = NULL then LuaValue.nil else LuaValue.object p

namespace EventManager

/-- Source `EventManager::fireEvent(EventType)` (onNexusOpened, onNexusClosed). -/
def fireEvent (scripts : Scripts) (fuel : Nat) (w : World) (eventType : EventType) : Outcome :=
  if w.em.suppressEvents eventType then .returned w
  else dispatchLoop scripts eventType (fun _ => false) [] fuel 0 w

/-- Source `EventManager::fireEvent(EventType, U32 deltaT)` (onTick). -/
def fireEventDeltaT (scripts : Scripts) (fuel : Nat) (w : World) (eventType : EventType)
    (deltaT : Nat) : Outcome :=
  if w.em.suppressEvents eventType then .returned w
  else
    let w1 : World :=
      if eventType = EventType.TickEvent then
        { w with em := { w.em with mStepCount := wrapS32 (w.em.mStepCount - 1) } }
      else w
    dispatchLoop scripts eventType (fun _ => false) [.integer deltaT] fuel 0 w1

/-- Source `EventManager::fireEvent(EventType, CoreItem *)` (onCoreDestroyed). -/
def fireEventCore (scripts : Scripts) (fuel : Nat) (w : World) (eventType : EventType)
    (core : Ptr) : Outcome :=
  if w.em.suppressEvents eventType then .returned w
  else dispatchLoop scripts eventType (fun _ => false) [.object core] fuel 0 w

/-- Source `EventManager::fireEvent(EventType, Ship *)` (onShipSpawned). -/
def fireEventShip (scripts : Scripts) (fuel : Nat) (w : World) (eventType : EventType)
    (ship : Ptr) : Outcome :=
  if w.em.suppressEvents eventType then .returned w
  else dispatchLoop scripts eventType (fun _ => false) [.object ship] fuel 0 w

/-- Source `EventManager::fireEvent(EventType, Ship *, BfObject *, BfObject *)` (onShipKilled). -/
def fireEventShipKilled (scripts : Scripts) (fuel : Nat) (w : World) (eventType : EventType)
    (ship damagingObject shooter : Ptr) : Outcome :=
  if w.em.suppressEvents eventType then .returned w
  else
    dispatchLoop scripts eventType (fun _ => false)
      [.object ship, pushOrNil damagingObject, pushOrNil shooter] fuel 0 w

/-- Source `EventManager::fireEvent(LuaScriptRunner *sender, EventType, const char *message,
LuaPlayerInfo *, bool global)` (chat message). -/
def fireEventMessage (scripts : Scripts) (fuel : Nat) (w : World) (sender : LuaScriptRunner)
    (eventType : EventType) (message : String) (playerInfo : Ptr) (global : Bool) : Outcome :=
  if w.em.suppressEvents eventType then .returned w
  else
    dispatchLoop scripts eventType (fun subscriber => sender == subscriber)
      [.string message, pushOrNil playerInfo, .boolean global] fuel 0 w

/-- Source `EventManager::fireEvent(LuaScriptRunner *player, EventType, LuaPlayerInfo *)`
(onPlayerJoined, onPlayerLeft, onPlayerTeamChanged). -/
def fireEventPlayer (scripts : Scripts) (fuel : Nat) (w : World) (player : LuaScriptRunner)
    (eventType : EventType) (playerInfo : Ptr) : Outcome :=
  if w.em.suppressEvents eventType then .returned w
  else
    dispatchLoop scripts eventType (fun subscriber => player == subscriber)
      [.object playerInfo] fuel 0 w

/-- Source `EventManager::fireEvent(EventType, Ship *, Zone *)` (onShipEnteredZone,
onShipLeftZone). `objectTypeNumber` and `userAssignedId` are what the zone's getters return. -/
def fireEventZone (scripts : Scripts) (fuel : Nat) (w : World) (eventType : EventType)
    (ship zone : Ptr) (objectTypeNumber userAssignedId : Int) : Outcome :=
  if w.em.suppressEvents eventType then .returned w
  else
    zoneLoop scripts eventType
      [.object ship, .object zone, .integer objectTypeNumber, .integer userAssignedId] fuel 0 w

/-- Source `EventManager::fireEvent(EventType, S32 score, S32 teamIndex, LuaPlayerInfo *)`
(onScoreChanged). -/
def fireEventScore (scripts : Scripts) (fuel : Nat) (w : World) (eventType : EventType)
    (score teamIndex : Int) (playerInfo : Ptr) : Outcome :=
  if w.em.suppressEvents eventType then .returned w
  else
    dispatchLoop scripts eventType (fun _ => false)
      [.integer score, .integer teamIndex, pushOrNil playerInfo] fuel 0 w

end EventManager

/-- The subscribers of a list of subscriptions, in order. -/
def keys (l : List Subscription) : List LuaScriptRunner :=
  l.map Subscription.subscriber

/-- A list with its last element moved to the front; what `erase_fast` leaves of the part
of a vector that follows the erased slot. -/
def lastToFront {α : Type} (l : List α) : List α :=
  match l.getLast? with
  | none => []
  | some x => x :: l.dropLast

/-- The states reachable from the initial one by calls of the public operations. The
handler-presence answer `loadFunction` may differ from call to call. `tick` is the
decrement of `mStepCount` done by a Tick dispatch. -/
inductive Reachable : EventManager → Prop where
  | initial : Reachable EventManager.initial
  | subscribe {em : EventManager} (loadFunction : LuaScriptRunner → EventType → Bool)
      (subscriber : LuaScriptRunner) (eventType : EventType) (context : ScriptContext)
      (failSilently : Bool) :
      Reachable em → Reachable (em.subscribe loadFunction subscriber eventType context failSilently)
  | unsubscribe {em : EventManager} (subscriber : LuaScriptRunner) (eventType : EventType) :
      Reachable em → Reachable (em.unsubscribe subscriber eventType)
  | unsubscribeImmediate {em : EventManager} (subscriber : LuaScriptRunner)
      (eventType : EventType) :
      Reachable em → Reachable (em.unsubscribeImmediate subscriber eventType)
  | update {em : EventManager} : Reachable em → Reachable em.update
  | setPaused {em : EventManager} (isPaused : Bool) :
      Reachable em → Reachable (em.setPaused isPaused)
  | togglePauseStatus {em : EventManager} : Reachable em → Reachable em.togglePauseStatus
  | addSteps {em : EventManager} (steps : Int) : Reachable em → Reachable (em.addSteps steps)
  | tick {em : EventManager} :
      Reachable em → Reachable { em with mStepCount := wrapS32 (em.mStepCount - 1) }

/-- The table invariants kept by every operation: no subscriber twice in a list, nobody
both queued for subscription and live or queued for removal, and `anyPending` set whenever
something is queued. -/
structure WellFormed (em : EventManager) : Prop where
  live_nodup : ∀ K, (keys (em.subscriptions K)).Nodup
  add_nodup : ∀ K, (keys (em.pendingSubscriptions K)).Nodup
  remove_nodup : ∀ K, (em.pendingUnsubscriptions K).Nodup
  add_not_live : ∀ K x, x ∈ keys (em.pendingSubscriptions K) → x ∉ keys (em.subscriptions K)
  add_not_remove : ∀ K x, x ∈ keys (em.pendingSubscriptions K) → x ∉ em.pendingUnsubscriptions K
  flag : ∀ K, em.anyPending = false →
    em.pendingSubscriptions K = [] ∧ em.pendingUnsubscriptions K = []

/-- A script table in which every script defines every handler. -/
def everyHandler : LuaScriptRunner → EventType → Bool :=
  fun _ _ => true

/-- Three subscribers 1, 2, 3 subscribed to Tick and committed. -/
def threeLive : EventManager :=
  (((EventManager.initial.subscribe everyHandler 1 EventType.TickEvent
      ScriptContext.RobotContext false).subscribe everyHandler 2 EventType.TickEvent
      ScriptContext.RobotContext false).subscribe everyHandler 3 EventType.TickEvent
      ScriptContext.LevelgenContext false).update

/-- The state `threeLive` after `unsubscribe(1, TickEvent)`: live list 1, 2, 3 with
subscriber 1 queued for removal. -/
def firstLeaving : EventManager :=
  threeLive.unsubscribe 1 EventType.TickEvent

/-- A call of `subscribe` or `unsubscribe` made between two commits. -/
inductive Request where
  | subscribe (loadFunction : LuaScriptRunner → EventType → Bool) (subscriber : LuaScriptRunner)
      (eventType : EventType) (context : ScriptContext) (failSilently : Bool)
  | unsubscribe (subscriber : LuaScriptRunner) (eventType : EventType)

/-- The subscriber a request is about. -/
def Request.subscriber : Request → LuaScriptRunner
  | .subscribe _ x _ _ _ => x
  | .unsubscribe x _ => x

/-- Perform one request. -/
def EventManager.request (em : EventManager) : Request → EventManager
  | .subscribe loadFunction x k c failSilently => em.subscribe loadFunction x k c failSilently
  | .unsubscribe x k => em.unsubscribe x k

/-- Perform a sequence of requests, first to last. -/
def EventManager.requests (em : EventManager) (rs : List Request) : EventManager :=
  rs.foldl EventManager.request em

/-- The requests `rs`, performed from `em` on, are all about subscribers other than `A` and
`B`, and none of them unsubscribes from `K` a subscriber that is in the pending-subscribe
list of `K` at the time of the call. -/
def othersKeepQueue (A B : LuaScriptRunner) (K : EventType) :
    EventManager → List Request → Bool
  | _, [] => true
  | em, r :: rest =>
    (r.subscriber != A) && (r.subscriber != B) &&
    (match r with
      | .unsubscribe x k => !(decide (k = K) && em.isPendingSubscribed x K)
      | .subscribe _ _ _ _ _ => true) &&
    othersKeepQueue A B K (em.request r) rest

/-- Subscriber 9 has asked to subscribe to Tick and nothing is committed yet. -/
def nineQueued : EventManager :=
  EventManager.initial.update.subscribe everyHandler 9 EventType.TickEvent
    ScriptContext.RobotContext false

/-- From `nineQueued`: subscriber 4 subscribes, then 5, then 9 unsubscribes, then the commit. -/
def nineLeft : EventManager :=
  ((((nineQueued.subscribe everyHandler 4 EventType.TickEvent ScriptContext.RobotContext
      false).subscribe everyHandler 5 EventType.TickEvent ScriptContext.RobotContext
      false).unsubscribe 9 EventType.TickEvent)).update

/-- One call of a `fireEvent` overload, with its arguments. -/
inductive FireCall where
  | plain (eventType : EventType)
  | deltaT (eventType : EventType) (deltaT : Nat)
  | core (eventType : EventType) (core : Ptr)
  | ship (eventType : EventType) (ship : Ptr)
  | shipKilled (eventType : EventType) (ship damagingObject shooter : Ptr)
  | message (sender : LuaScriptRunner) (eventType : EventType) (message : String)
      (playerInfo : Ptr) (global : Bool)
  | player (player : LuaScriptRunner) (eventType : EventType) (playerInfo : Ptr)
  | zone (eventType : EventType) (ship zone : Ptr) (objectTypeNumber userAssignedId : Int)
  | score (eventType : EventType) (score teamIndex : Int) (playerInfo : Ptr)

namespace FireCall

/-- The event kind a call fires. -/
def eventType : FireCall → EventType
  | plain k => k
  | deltaT k _ => k
  | core k _ => k
  | ship k _ => k
  | shipKilled k _ _ _ => k
  | message _ k _ _ _ => k
  | player _ k _ => k
  | zone k _ _ _ _ => k
  | score k _ _ _ => k

/-- The sender or acting player of the two overloads that take one. -/
def sender? : FireCall → Option LuaScriptRunner
  | message sender _ _ _ _ => some sender
  | player p _ _ => some p
  | _ => none

/-- Whether the call is the ship-and-zone overload, the one whose loop body is a `try`. -/
def isZone : FireCall → Bool
  | zone _ _ _ _ _ => true
  | _ => false

/-- Perform the call: the overload selected by the arguments. -/
def run (scripts : Scripts) (fuel : Nat) (w : World) : FireCall → Outcome
  | plain k => EventManager.fireEvent scripts fuel w k
  | deltaT k d => EventManager.fireEventDeltaT scripts fuel w k d
  | core k c => EventManager.fireEventCore scripts fuel w k c
  | ship k s => EventManager.fireEventShip scripts fuel w k s
  | shipKilled k s d sh => EventManager.fireEventShipKilled scripts fuel w k s d sh
  | message sender k m p g => EventManager.fireEventMessage scripts fuel w sender k m p g
  | player pl k p => EventManager.fireEventPlayer scripts fuel w pl k p
  | zone k s z t i => EventManager.fireEventZone scripts fuel w k s z t i
  | score k s t p => EventManager.fireEventScore scripts fuel w k s t p

/-- The subscribers a call passes over: the sender, for the overloads that have one. -/
def skips (call : FireCall) (subscriber : LuaScriptRunner) : Bool :=
  match call.sender? with
  | some sender => sender == subscriber
  | none => false

/-- The arguments a call pushes before each handler. -/
def args : FireCall → List LuaValue
  | plain _ => []
  | deltaT _ d => [.integer d]
  | core _ c => [.object c]
  | ship _ s => [.object s]
  | shipKilled _ s d sh => [.object s, pushOrNil d, pushOrNil sh]
  | message _ _ m p g => [.string m, pushOrNil p, .boolean g]
  | player _ _ p => [.object p]
  | zone _ s z t i => [.object s, .object z, .integer t, .integer i]
  | score _ s t p => [.integer s, .integer t, pushOrNil p]

/-- The state in which the loop of a call that is not suppressed starts: the `deltaT`
overload has decremented `mStepCount` when the event is Tick. -/
def enter (call : FireCall) (w : World) : World :=
  match call with
  | deltaT k _ =>
    if k = EventType.TickEvent then
      { w with em := { w.em with mStepCount := wrapS32 (w.em.mStepCount - 1) } }
    else w
  | _ => w

end FireCall

/-- The state after the handlers of the given subscriptions have run one after the other. -/
def afterHandlers (scripts : Scripts) (eventType : EventType) (em : EventManager)
    (subs : List Subscription) : EventManager :=
  subs.foldl (fun e s => (scripts s.subscriber eventType e).2) em

/-- Scripts whose handlers change nothing: the handler of script runner 2 throws a
`LuaException`, every other handler succeeds. -/
def secondThrows : Scripts :=
  fun r _ em => if r = 2 then (RunResult.threw "handler error", em) else (RunResult.returned false, em)

/-- Scripts whose handlers change nothing: `runFunction` reports an error for script
runner 2 and succeeds for every other one. -/
def secondReportsError : Scripts :=
  fun r _ em => if r = 2 then (RunResult.returned true, em) else (RunResult.returned false, em)

/-- The state `threeLive` (live Tick list: bots 1 and 2, level generator 3) with nothing
done yet. -/
def threeLiveWorld : World :=
  { em := threeLive, trace := [] }

/-- Scripts in which the handler of script runner 1, when run for an event kind, calls
`unsubscribe(2, kind)` and then `subscribe(4, kind, RobotContext)`; every other handler
changes nothing; all succeed. -/
def firstRewires : Scripts :=
  fun r k em =>
    if r = 1 then
      (RunResult.returned false,
        (em.unsubscribe 2 k).subscribe everyHandler 4 k ScriptContext.RobotContext false)
    else (RunResult.returned false, em)

/-- Modelled from the spec: the `TNLAssert` macro is missing from the sources. A failed
assertion is the fatal end of the call (the "fatal assertion path"); this is its text. -/
abbrev AssertionFailure := String

/-- The process-wide state of EventManager.cpp with the lifecycle of the singleton:
the static `mConstructed`, the static pointer `eventManager` (`NULL` when there is no
instance), the number of constructions completed so far, and the remaining state (the
static tables, and the members of the object the pointer designates, which mean nothing
while the pointer is `NULL`). The object made by the k-th construction has address k. -/
structure Process where
  mConstructed : Bool
  eventManager : Ptr
  constructions : Nat
  state : EventManager

namespace EventManager

/-- Source `EventManager::EventManager()`, the C++ constructor: `TNLAssert(!mConstructed, ...)`,
then the members are initialised and `mConstructed` is set. -/
def construct (p : Process) : Except AssertionFailure Process :=
  if p.mConstructed then
    Except.error "There is only one EventManager to rule them all!"
  else
    Except.ok
      { p with
        state := { p.state with mIsPaused := false, mStepCount := -1 }
        mConstructed := true
        constructions := p.constructions + 1 }

/-- Source `EventManager::get`: construct the instance when the pointer is `NULL`, and
return the pointer. -/
def get (p : Process) : Except AssertionFailure (Ptr × Process) :=
  if p.eventManager = NULL then
    match construct p with
    | Except.ok p1 => Except.ok (p1.constructions, { p1 with eventManager := p1.constructions })
    | Except.error e => Except.error e
  else
    Except.ok (p.eventManager, p)

/-- Source `EventManager::shutdown`: `delete eventManager` runs the destructor, which does
nothing, and the pointer is set to `NULL`. -/
def shutdown (p : Process) : Process :=
  if p.eventManager ≠ NULL then
    { p with eventManager := NULL }
  else
    p

end EventManager

/-- Calls of `EventManager::get()` in a row, `n` of them, with the pointers they return. -/
def getTimes : Nat → Process → Except AssertionFailure (List Ptr × Process)
  | 0, p => Except.ok ([], p)
  | n + 1, p =>
    match EventManager.get p with
    | Except.error e => Except.error e
    | Except.ok (a, p1) =>
      match getTimes n p1 with
      | Except.error e => Except.error e
      | Except.ok (rest, p2) => Except.ok (a :: rest, p2)

/-- The process at program start: no instance, `mConstructed` false, empty tables. -/
def freshProcess : Process :=
  { mConstructed := false, eventManager := NULL, constructions := 0,
    state := EventManager.initial }

/-- A process during a session: the instance made by the first construction exists and the
live Tick list holds the subscribers 1, 2, 3 of `threeLive`. -/
def runningProcess : Process :=
  { mConstructed := true, eventManager := 1, constructions := 1, state := threeLive }

/-- Whether a call ended by a failed assertion. -/
def failed {α : Type} : Except AssertionFailure α → Bool
  | Except.error _ => true
  | Except.ok _ => false

/-- One Tick fired after the other through `fireEvent(TickEvent, deltaT)`, one firing per
element of the list, as long as each call returns. -/
def fireTicks (scripts : Scripts) (fuel : Nat) : List Nat → World → Outcome
  | [], w => Outcome.returned w
  | deltaT :: rest, w =>
    match EventManager.fireEventDeltaT scripts fuel w EventType.TickEvent deltaT with
    | Outcome.returned w1 => fireTicks scripts fuel rest w1
    | other => other

/-- Scripts whose handlers all succeed and change nothing. -/
def quietScripts : Scripts :=
  fun _ _ em => (RunResult.returned false, em)

/-- Scripts in which the handler of script runner 1 tears itself down, calling
`unsubscribeImmediate(1, kind)`; every other handler changes nothing. -/
def firstLeavesAtOnce : Scripts :=
  fun r k em =>
    if r = 1 then (RunResult.returned false, em.unsubscribeImmediate 1 k)
    else (RunResult.returned false, em)

/-- The state `threeLive` after pause, `addSteps(3)`, unpause and pause again. -/
def pausedAgain : EventManager :=
  (((threeLive.setPaused true).addSteps 3).setPaused false).setPaused true

/-- Script runners 1 and 2 (bots) and 3 (a level generator) subscribed to the event kind
`K` and committed: the live list of `K` is 1, 2, 3 and nothing is pending. -/
def threeLiveFor (K : EventType) : EventManager :=
  (((EventManager.initial.subscribe everyHandler 1 K ScriptContext.RobotContext
      false).subscribe everyHandler 2 K ScriptContext.RobotContext
      false).subscribe everyHandler 3 K ScriptContext.LevelgenContext false).update

section ListLemmas
variable {α : Type}

theorem lastToFront_nil : lastToFront ([] : List α) = [] := rfl

theorem lastToFront_concat (l : List α) (x : α) : lastToFront (l ++ [x]) = x :: l := by
  simp [lastToFront]

theorem eq_nil_or_snoc (l : List α) : l = [] ∨ ∃ init x, l = init ++ [x] := by
  rcases List.eq_nil_or_concat l with h | ⟨init, x, h⟩
  · exact Or.inl h
  · exact Or.inr ⟨init, x, by rw [h, List.concat_eq_append]⟩

theorem lastToFront_perm (l : List α) : (lastToFront l).Perm l := by
  rcases eq_nil_or_snoc l with h | ⟨init, x, h⟩
  · subst h; exact List.Perm.refl _
  · subst h
    rw [lastToFront_concat]
    exact (List.perm_append_singleton x init).symm

theorem erase_fast_append_cons (pre : List α) (a : α) (post : List α) :
    erase_fast (pre ++ a :: post) pre.length = pre ++ lastToFront post := by
  rcases eq_nil_or_snoc post with h | ⟨init, x, h⟩
  · subst h
    simp [erase_fast, lastToFront]
  · subst h
    have h0 : pre ++ a :: (init ++ [x]) = (pre ++ a :: init) ++ [x] := by simp
    have h1 : (pre ++ a :: (init ++ [x])).getLast? = some x := by
      rw [h0, List.getLast?_append]; simp
    have h2 : (pre ++ a :: (init ++ [x])).set pre.length x = (pre ++ x :: init) ++ [x] := by
      rw [List.set_append_right _ _ (Nat.le_refl _)]; simp
    simp only [erase_fast, h1, lastToFront_concat, h2]
    rw [List.dropLast_concat]

theorem firstIndex_eq_none {p : α → Bool} {v : List α} :
    firstIndex p v = none ↔ ∀ x ∈ v, p x = false := by
  induction v with
  | nil => simp [firstIndex]
  | cons a rest ih =>
    by_cases ha : p a = true
    · simp [firstIndex, ha]
    · simp [firstIndex, ha, ih]

theorem firstIndex_eq_some {p : α → Bool} {v : List α} {i : Nat}
    (h : firstIndex p v = some i) :
    ∃ pre a post, v = pre ++ a :: post ∧ pre.length = i ∧ p a = true ∧
      ∀ x ∈ pre, p x = false := by
  induction v generalizing i with
  | nil => simp [firstIndex] at h
  | cons b rest ih =>
    by_cases hb : p b = true
    · simp [firstIndex, hb] at h
      exact ⟨[], b, rest, rfl, by simpa using h, hb, by simp⟩
    · simp [firstIndex, hb] at h
      obtain ⟨j, hj, hji⟩ := h
      obtain ⟨pre, a, post, hv, hlen, hpa, hpre⟩ := ih hj
      refine ⟨b :: pre, a, post, by simp [hv], by simp [hlen, hji], hpa, ?_⟩
      intro x hx
      rcases List.mem_cons.mp hx with hx | hx
      · subst hx; simpa using hb
      · exact hpre x hx

theorem firstIndex_append_cons {p : α → Bool} (pre : List α) (a : α) (post : List α)
    (hpre : ∀ x ∈ pre, p x = false) (ha : p a = true) :
    firstIndex p (pre ++ a :: post) = some pre.length := by
  induction pre with
  | nil => simp [firstIndex, ha]
  | cons b pre ih =>
    have hb : p b = false := hpre b (List.mem_cons_self _ _)
    have := ih (fun x hx => hpre x (List.mem_cons_of_mem _ hx))
    simp [firstIndex, hb, this]

theorem removeFirst_of_forall_false {p : α → Bool} {v : List α}
    (h : ∀ x ∈ v, p x = false) : removeFirst p v = v := by
  simp [removeFirst, firstIndex_eq_none.mpr h]

theorem removeFirst_append_cons {p : α → Bool} (pre : List α) (a : α) (post : List α)
    (hpre : ∀ x ∈ pre, p x = false) (ha : p a = true) :
    removeFirst p (pre ++ a :: post) = pre ++ lastToFront post := by
  simp only [removeFirst, firstIndex_append_cons pre a post hpre ha]
  exact erase_fast_append_cons pre a post

theorem removeFirst_cases (p : α → Bool) (v : List α) :
    ((∀ x ∈ v, p x = false) ∧ removeFirst p v = v) ∨
    ∃ pre a post, v = pre ++ a :: post ∧ p a = true ∧ (∀ x ∈ pre, p x = false) ∧
      removeFirst p v = pre ++ lastToFront post := by
  cases h : firstIndex p v with
  | none =>
    exact Or.inl ⟨firstIndex_eq_none.mp h, removeFirst_of_forall_false (firstIndex_eq_none.mp h)⟩
  | some i =>
    obtain ⟨pre, a, post, hv, _, hpa, hpre⟩ := firstIndex_eq_some h
    exact Or.inr ⟨pre, a, post, hv, hpa, hpre, by rw [hv]; exact removeFirst_append_cons pre a post hpre hpa⟩

theorem eraseP_append_cons {p : α → Bool} (pre : List α) (a : α) (post : List α)
    (hpre : ∀ x ∈ pre, p x = false) (ha : p a = true) :
    (pre ++ a :: post).eraseP p = pre ++ post := by
  induction pre with
  | nil => simp [List.eraseP_cons, ha]
  | cons b pre ih =>
    have hb : p b = false := hpre b (List.mem_cons_self _ _)
    simp [List.eraseP_cons, hb, ih (fun x hx => hpre x (List.mem_cons_of_mem _ hx))]

theorem removeFirst_perm_eraseP (p : α → Bool) (v : List α) :
    (removeFirst p v).Perm (v.eraseP p) := by
  rcases removeFirst_cases p v with ⟨hall, h⟩ | ⟨pre, a, post, hv, hpa, hpre, h⟩
  · rw [h, List.eraseP_of_forall_not (fun x hx => by simp [hall x hx])]
  · rw [h, hv, eraseP_append_cons pre a post hpre hpa]
    exact List.Perm.append_left pre (lastToFront_perm post)

end ListLemmas

section KeyLemmas
variable {α β : Type}

theorem eraseP_eq_filter_of_nodup (f : α → β) (X : β) (p : α → Bool)
    (hp : ∀ a, p a = true ↔ f a = X) (v : List α) (hnd : (v.map f).Nodup) :
    v.eraseP p = v.filter (fun a => !p a) := by
  induction v with
  | nil => rfl
  | cons a rest ih =>
    rw [List.map_cons, List.nodup_cons] at hnd
    by_cases ha : p a = true
    · have hrest : ∀ b ∈ rest, (!p b) = true := by
        intro b hb
        cases hpb : p b with
        | false => rfl
        | true =>
          exfalso
          apply hnd.1
          rw [(hp a).mp ha, ← (hp b).mp hpb]
          exact List.mem_map_of_mem f hb
      simp [List.eraseP_cons, ha, List.filter_cons, List.filter_eq_self.mpr hrest]
    · simp [List.eraseP_cons, ha, List.filter_cons, ih hnd.2]

theorem removeFirst_perm_filter (f : α → β) (X : β) (p : α → Bool)
    (hp : ∀ a, p a = true ↔ f a = X) (v : List α) (hnd : (v.map f).Nodup) :
    (removeFirst p v).Perm (v.filter (fun a => !p a)) := by
  rw [← eraseP_eq_filter_of_nodup f X p hp v hnd]
  exact removeFirst_perm_eraseP p v

theorem mem_of_mem_removeFirst {p : α → Bool} {v : List α} {a : α}
    (h : a ∈ removeFirst p v) : a ∈ v :=
  List.mem_of_mem_eraseP ((removeFirst_perm_eraseP p v).mem_iff.mp h)

theorem mem_removeFirst_of_neg {p : α → Bool} {v : List α} {a : α}
    (hp : p a = false) (h : a ∈ v) : a ∈ removeFirst p v := by
  apply (removeFirst_perm_eraseP p v).mem_iff.mpr
  exact (List.mem_eraseP_of_neg (by simp [hp])).mpr h

theorem nodup_map_removeFirst (f : α → β) (p : α → Bool) (v : List α)
    (hnd : (v.map f).Nodup) : ((removeFirst p v).map f).Nodup := by
  have h1 : ((removeFirst p v).map f).Perm ((v.eraseP p).map f) :=
    (removeFirst_perm_eraseP p v).map f
  apply h1.nodup_iff.mpr
  exact hnd.sublist ((List.eraseP_sublist v).map f)

theorem mem_removeFirst_iff (f : α → β) (X : β) (p : α → Bool)
    (hp : ∀ a, p a = true ↔ f a = X) (v : List α) (hnd : (v.map f).Nodup) (a : α) :
    a ∈ removeFirst p v ↔ a ∈ v ∧ f a ≠ X := by
  rw [(removeFirst_perm_filter f X p hp v hnd).mem_iff, List.mem_filter]
  constructor
  · rintro ⟨h1, h2⟩
    refine ⟨h1, fun h => ?_⟩
    rw [(hp a).mpr h] at h2
    simp at h2
  · rintro ⟨h1, h2⟩
    refine ⟨h1, ?_⟩
    cases hpa : p a with
    | false => rfl
    | true => exact absurd ((hp a).mp hpa) h2

end KeyLemmas

theorem subscriberPred (X : LuaScriptRunner) (s : Subscription) :
    (s.subscriber == X) = true ↔ s.subscriber = X := by simp

theorem runnerPred (X : LuaScriptRunner) (s : LuaScriptRunner) :
    (s == X) = true ↔ id s = X := by simp

theorem mem_keys_removeFirst_iff (X : LuaScriptRunner) (v : List Subscription)
    (hnd : (keys v).Nodup) (x : LuaScriptRunner) :
    x ∈ keys (removeFirst (fun s => s.subscriber == X) v) ↔ x ∈ keys v ∧ x ≠ X := by
  simp only [keys, List.mem_map]
  constructor
  · rintro ⟨s, hs, rfl⟩
    have := (mem_removeFirst_iff Subscription.subscriber X _ (subscriberPred X) v hnd s).mp hs
    exact ⟨⟨s, this.1, rfl⟩, this.2⟩
  · rintro ⟨⟨s, hs, rfl⟩, hne⟩
    exact ⟨s, (mem_removeFirst_iff Subscription.subscriber X _ (subscriberPred X) v hnd s).mpr
      ⟨hs, hne⟩, rfl⟩

theorem mem_runners_removeFirst_iff (X : LuaScriptRunner) (v : List LuaScriptRunner)
    (hnd : v.Nodup) (x : LuaScriptRunner) :
    x ∈ removeFirst (fun s => s == X) v ↔ x ∈ v ∧ x ≠ X := by
  have hnd1 : (v.map id).Nodup := by simpa using hnd
  exact mem_removeFirst_iff id X _ (runnerPred X) v hnd1 x

theorem nodup_keys_removeFirst (p : Subscription → Bool) (v : List Subscription)
    (hnd : (keys v).Nodup) : (keys (removeFirst p v)).Nodup :=
  nodup_map_removeFirst Subscription.subscriber p v hnd

theorem nodup_runners_removeFirst (p : LuaScriptRunner → Bool) (v : List LuaScriptRunner)
    (hnd : v.Nodup) : (removeFirst p v).Nodup := by
  have hnd1 : (v.map id).Nodup := by simpa using hnd
  simpa using nodup_map_removeFirst id p v hnd1

theorem mem_keys_of_mem_removeFirst {p : Subscription → Bool} {v : List Subscription}
    {x : LuaScriptRunner} (h : x ∈ keys (removeFirst p v)) : x ∈ keys v := by
  simp only [keys, List.mem_map] at h ⊢
  obtain ⟨s, hs, rfl⟩ := h
  exact ⟨s, mem_of_mem_removeFirst hs, rfl⟩

namespace EventManager

theorem isSubscribed_iff (em : EventManager) (X : LuaScriptRunner) (K : EventType) :
    em.isSubscribed X K = true ↔ X ∈ keys (em.subscriptions K) := by
  simp [isSubscribed, keys, List.any_eq_true]

theorem isPendingSubscribed_iff (em : EventManager) (X : LuaScriptRunner) (K : EventType) :
    em.isPendingSubscribed X K = true ↔ X ∈ keys (em.pendingSubscriptions K) := by
  simp [isPendingSubscribed, keys, List.any_eq_true]

theorem isPendingUnsubscribed_iff (em : EventManager) (X : LuaScriptRunner) (K : EventType) :
    em.isPendingUnsubscribed X K = true ↔ X ∈ em.pendingUnsubscriptions K := by
  simp [isPendingUnsubscribed, List.any_eq_true]

theorem setAt_same {α : Type} (table : EventType → α) (k : EventType) (x : α) :
    setAt table k x k = x := by simp [setAt]

theorem setAt_other {α : Type} (table : EventType → α) (k : EventType) (x : α)
    {i : EventType} (h : i ≠ k) : setAt table k x i = table i := by simp [setAt, h]

/-- The two ways `subscribe` can end: nothing changes, or the subscriber was in neither
the live nor the pending-subscribe list, its script has the handler, and the new state is
the one written out. -/
theorem subscribe_cases (em : EventManager) (lf : LuaScriptRunner → EventType → Bool)
    (X : LuaScriptRunner) (K : EventType) (c : ScriptContext) (fs : Bool) :
    em.subscribe lf X K c fs = em ∨
    (X ∉ keys (em.subscriptions K) ∧ X ∉ keys (em.pendingSubscriptions K) ∧ lf X K = true ∧
      em.subscribe lf X K c fs =
        { em with
          pendingUnsubscriptions := setAt em.pendingUnsubscriptions K
            (removeFirst (fun s => s == X) (em.pendingUnsubscriptions K))
          pendingSubscriptions := setAt em.pendingSubscriptions K
            (em.pendingSubscriptions K ++ [{ subscriber := X, context := c }])
          anyPending := true }) := by
  unfold subscribe
  by_cases h1 : (em.isSubscribed X K || em.isPendingSubscribed X K) = true
  · left; simp [h1]
  · by_cases h2 : lf X K = true
    · right
      have h1' := h1
      rw [Bool.or_eq_true, not_or, isSubscribed_iff, isPendingSubscribed_iff] at h1'
      refine ⟨h1'.1, h1'.2, h2, ?_⟩
      simp [h1, h2, removeFromPendingUnsubscribeList]
    · left; simp [h1, h2]

/-- The two ways `unsubscribe` can end. -/
theorem unsubscribe_cases (em : EventManager) (X : LuaScriptRunner) (K : EventType) :
    em.unsubscribe X K = em ∨
    ((X ∈ keys (em.subscriptions K) ∨ X ∈ keys (em.pendingSubscriptions K)) ∧
      X ∉ em.pendingUnsubscriptions K ∧
      em.unsubscribe X K =
        { em with
          pendingSubscriptions := setAt em.pendingSubscriptions K
            (removeFirst (fun s => s.subscriber == X) (em.pendingSubscriptions K))
          pendingUnsubscriptions := setAt em.pendingUnsubscriptions K
            (em.pendingUnsubscriptions K ++ [X])
          anyPending := true }) := by
  unfold unsubscribe
  by_cases h1 : ((em.isSubscribed X K || em.isPendingSubscribed X K)
      && !em.isPendingUnsubscribed X K) = true
  · right
    have h1' := h1
    rw [Bool.and_eq_true, Bool.or_eq_true, isSubscribed_iff, isPendingSubscribed_iff,
      Bool.not_eq_true', ← Bool.not_eq_true, isPendingUnsubscribed_iff] at h1'
    refine ⟨h1'.1, h1'.2, ?_⟩
    simp [h1, removeFromPendingSubscribeList]
  · left; simp [h1]

end EventManager

theorem keys_append (l1 l2 : List Subscription) : keys (l1 ++ l2) = keys l1 ++ keys l2 := by
  simp [keys]

theorem nodup_keys_applyUnsubscriptions (live : List Subscription)
    (pending : List LuaScriptRunner) (hnd : (keys live).Nodup) :
    (keys (EventManager.applyUnsubscriptions live pending)).Nodup := by
  induction pending generalizing live with
  | nil => simpa [EventManager.applyUnsubscriptions] using hnd
  | cons x rest ih =>
    simp only [EventManager.applyUnsubscriptions, List.foldl_cons]
    exact ih _ (nodup_keys_removeFirst _ live hnd)

theorem mem_keys_applyUnsubscriptions_iff (live : List Subscription)
    (pending : List LuaScriptRunner) (hnd : (keys live).Nodup) (x : LuaScriptRunner) :
    x ∈ keys (EventManager.applyUnsubscriptions live pending) ↔
      x ∈ keys live ∧ x ∉ pending := by
  induction pending generalizing live with
  | nil => simp [EventManager.applyUnsubscriptions]
  | cons y rest ih =>
    simp only [EventManager.applyUnsubscriptions, List.foldl_cons]
    have := ih (removeFirst (fun s => s.subscriber == y) live)
      (nodup_keys_removeFirst _ live hnd)
    simp only [EventManager.applyUnsubscriptions] at this
    rw [this, mem_keys_removeFirst_iff y live hnd x]
    simp only [List.mem_cons, not_or]
    tauto

namespace EventManager

theorem wellFormed_initial : WellFormed initial := by
  constructor <;> simp [initial, keys]

theorem wellFormed_subscribe {em : EventManager} (h : WellFormed em)
    (lf : LuaScriptRunner → EventType → Bool) (X : LuaScriptRunner) (K : EventType)
    (c : ScriptContext) (fs : Bool) : WellFormed (em.subscribe lf X K c fs) := by
  rcases subscribe_cases em lf X K c fs with heq | ⟨hlive, hadd, _, heq⟩
  · rw [heq]; exact h
  · rw [heq]
    constructor
    · exact h.live_nodup
    · intro K'
      by_cases hK : K' = K
      · subst hK
        simp only [setAt_same, keys_append]
        rw [List.nodup_append]
        refine ⟨h.add_nodup K', by simp [keys], ?_⟩
        intro a ha hb
        simp [keys] at hb
        subst hb
        exact hadd ha
      · simp only [setAt_other _ _ _ hK]; exact h.add_nodup K'
    · intro K'
      by_cases hK : K' = K
      · subst hK
        simp only [setAt_same]
        exact nodup_runners_removeFirst _ _ (h.remove_nodup K')
      · simp only [setAt_other _ _ _ hK]; exact h.remove_nodup K'
    · intro K' x
      by_cases hK : K' = K
      · subst hK
        simp only [setAt_same, keys_append, List.mem_append]
        rintro (hx | hx)
        · exact h.add_not_live K' x hx
        · simp [keys] at hx; subst hx; exact hlive
      · simp only [setAt_other _ _ _ hK]; exact h.add_not_live K' x
    · intro K' x
      by_cases hK : K' = K
      · subst hK
        simp only [setAt_same, keys_append, List.mem_append]
        rw [mem_runners_removeFirst_iff X _ (h.remove_nodup K') x]
        rintro (hx | hx) ⟨h1, h2⟩
        · exact h.add_not_remove K' x hx h1
        · simp [keys] at hx; exact h2 hx
      · simp only [setAt_other _ _ _ hK]; exact h.add_not_remove K' x
    · intro K' hfalse
      simp at hfalse

theorem wellFormed_unsubscribe {em : EventManager} (h : WellFormed em)
    (X : LuaScriptRunner) (K : EventType) : WellFormed (em.unsubscribe X K) := by
  rcases unsubscribe_cases em X K with heq | ⟨_, hrem, heq⟩
  · rw [heq]; exact h
  · rw [heq]
    constructor
    · exact h.live_nodup
    · intro K'
      by_cases hK : K' = K
      · subst hK
        simp only [setAt_same]
        exact nodup_keys_removeFirst _ _ (h.add_nodup K')
      · simp only [setAt_other _ _ _ hK]; exact h.add_nodup K'
    · intro K'
      by_cases hK : K' = K
      · subst hK
        simp only [setAt_same]
        rw [List.nodup_append]
        refine ⟨h.remove_nodup K', by simp, ?_⟩
        intro a ha hb
        simp at hb
        subst hb
        exact hrem ha
      · simp only [setAt_other _ _ _ hK]; exact h.remove_nodup K'
    · intro K' x
      by_cases hK : K' = K
      · subst hK
        simp only [setAt_same]
        intro hx
        exact h.add_not_live K' x (mem_keys_of_mem_removeFirst hx)
      · simp only [setAt_other _ _ _ hK]; exact h.add_not_live K' x
    · intro K' x
      by_cases hK : K' = K
      · subst hK
        simp only [setAt_same, List.mem_append, List.mem_singleton]
        rw [mem_keys_removeFirst_iff X _ (h.add_nodup K') x]
        rintro ⟨h1, h2⟩ (h3 | h3)
        · exact h.add_not_remove K' x h1 h3
        · exact h2 h3
      · simp only [setAt_other _ _ _ hK]; exact h.add_not_remove K' x
    · intro K' hfalse
      simp at hfalse

theorem wellFormed_removeFromSubscribedList {em : EventManager} (h : WellFormed em)
    (X : LuaScriptRunner) (K : EventType) : WellFormed (em.removeFromSubscribedList X K) := by
  constructor
  · intro K'
    by_cases hK : K' = K
    · subst hK
      simp only [removeFromSubscribedList, setAt_same]
      exact nodup_keys_removeFirst _ _ (h.live_nodup K')
    · simp only [removeFromSubscribedList, setAt_other _ _ _ hK]; exact h.live_nodup K'
  · exact h.add_nodup
  · exact h.remove_nodup
  · intro K' x hx
    by_cases hK : K' = K
    · subst hK
      simp only [removeFromSubscribedList, setAt_same]
      intro hmem
      exact h.add_not_live K' x hx (mem_keys_of_mem_removeFirst hmem)
    · simp only [removeFromSubscribedList, setAt_other _ _ _ hK]; exact h.add_not_live K' x hx
  · exact h.add_not_remove
  · exact h.flag

theorem wellFormed_removeFromPendingSubscribeList {em : EventManager} (h : WellFormed em)
    (X : LuaScriptRunner) (K : EventType) :
    WellFormed (em.removeFromPendingSubscribeList X K) := by
  constructor
  · exact h.live_nodup
  · intro K'
    by_cases hK : K' = K
    · subst hK
      simp only [removeFromPendingSubscribeList, setAt_same]
      exact nodup_keys_removeFirst _ _ (h.add_nodup K')
    · simp only [removeFromPendingSubscribeList, setAt_other _ _ _ hK]; exact h.add_nodup K'
  · exact h.remove_nodup
  · intro K' x
    by_cases hK : K' = K
    · subst hK
      simp only [removeFromPendingSubscribeList, setAt_same]
      intro hx
      exact h.add_not_live K' x (mem_keys_of_mem_removeFirst hx)
    · simp only [removeFromPendingSubscribeList, setAt_other _ _ _ hK]
      exact h.add_not_live K' x
  · intro K' x
    by_cases hK : K' = K
    · subst hK
      simp only [removeFromPendingSubscribeList, setAt_same]
      intro hx
      exact h.add_not_remove K' x (mem_keys_of_mem_removeFirst hx)
    · simp only [removeFromPendingSubscribeList, setAt_other _ _ _ hK]
      exact h.add_not_remove K' x
  · intro K' hfalse
    have := h.flag K' hfalse
    by_cases hK : K' = K
    · subst hK
      simp only [removeFromPendingSubscribeList, setAt_same]
      rw [this.1]
      exact ⟨rfl, this.2⟩
    · simp only [removeFromPendingSubscribeList, setAt_other _ _ _ hK]; exact this

theorem wellFormed_removeFromPendingUnsubscribeList {em : EventManager} (h : WellFormed em)
    (X : LuaScriptRunner) (K : EventType) :
    WellFormed (em.removeFromPendingUnsubscribeList X K) := by
  constructor
  · exact h.live_nodup
  · exact h.add_nodup
  · intro K'
    by_cases hK : K' = K
    · subst hK
      simp only [removeFromPendingUnsubscribeList, setAt_same]
      exact nodup_runners_removeFirst _ _ (h.remove_nodup K')
    · simp only [removeFromPendingUnsubscribeList, setAt_other _ _ _ hK]
      exact h.remove_nodup K'
  · exact h.add_not_live
  · intro K' x hx
    by_cases hK : K' = K
    · subst hK
      simp only [removeFromPendingUnsubscribeList, setAt_same]
      intro hmem
      exact h.add_not_remove K' x hx (mem_of_mem_removeFirst hmem)
    · simp only [removeFromPendingUnsubscribeList, setAt_other _ _ _ hK]
      exact h.add_not_remove K' x hx
  · intro K' hfalse
    have := h.flag K' hfalse
    by_cases hK : K' = K
    · subst hK
      simp only [removeFromPendingUnsubscribeList, setAt_same]
      rw [this.2]
      exact ⟨this.1, rfl⟩
    · simp only [removeFromPendingUnsubscribeList, setAt_other _ _ _ hK]; exact this

theorem wellFormed_unsubscribeImmediate {em : EventManager} (h : WellFormed em)
    (X : LuaScriptRunner) (K : EventType) : WellFormed (em.unsubscribeImmediate X K) :=
  wellFormed_removeFromPendingUnsubscribeList
    (wellFormed_removeFromPendingSubscribeList (wellFormed_removeFromSubscribedList h X K) X K)
    X K

theorem wellFormed_update {em : EventManager} (h : WellFormed em) : WellFormed em.update := by
  unfold update
  by_cases hp : em.anyPending = true
  · simp only [hp, if_true]
    constructor
    · intro K
      simp only [keys_append]
      rw [List.nodup_append]
      refine ⟨nodup_keys_applyUnsubscriptions _ _ (h.live_nodup K), h.add_nodup K, ?_⟩
      intro a ha hb
      exact h.add_not_live K a hb
        ((mem_keys_applyUnsubscriptions_iff _ _ (h.live_nodup K) a).mp ha).1
    · intro K; simp [keys]
    · intro K; simp
    · intro K x hx; simp [keys] at hx
    · intro K x hx; simp [keys] at hx
    · intro K _; exact ⟨rfl, rfl⟩
  · simp [hp]; exact h

theorem wellFormed_of_tables_eq {em em1 : EventManager} (h : WellFormed em)
    (h1 : em1.subscriptions = em.subscriptions)
    (h2 : em1.pendingSubscriptions = em.pendingSubscriptions)
    (h3 : em1.pendingUnsubscriptions = em.pendingUnsubscriptions)
    (h4 : em1.anyPending = em.anyPending) : WellFormed em1 := by
  constructor
  · rw [h1]; exact h.live_nodup
  · rw [h2]; exact h.add_nodup
  · rw [h3]; exact h.remove_nodup
  · rw [h1, h2]; exact h.add_not_live
  · rw [h2, h3]; exact h.add_not_remove
  · rw [h2, h3, h4]; exact h.flag

end EventManager

theorem Reachable.wellFormed {em : EventManager} (h : Reachable em) : WellFormed em := by
  induction h with
  | initial => exact EventManager.wellFormed_initial
  | subscribe lf X K c fs _ ih => exact EventManager.wellFormed_subscribe ih lf X K c fs
  | unsubscribe X K _ ih => exact EventManager.wellFormed_unsubscribe ih X K
  | unsubscribeImmediate X K _ ih => exact EventManager.wellFormed_unsubscribeImmediate ih X K
  | update _ ih => exact EventManager.wellFormed_update ih
  | setPaused b _ ih => exact EventManager.wellFormed_of_tables_eq ih rfl rfl rfl rfl
  | togglePauseStatus _ ih => exact EventManager.wellFormed_of_tables_eq ih rfl rfl rfl rfl
  | addSteps n _ ih =>
    apply EventManager.wellFormed_of_tables_eq ih <;>
      (unfold EventManager.addSteps; split <;> rfl)
  | tick _ ih => exact EventManager.wellFormed_of_tables_eq ih rfl rfl rfl rfl

open EventManager

theorem update_subscriptions_of_wellFormed {em : EventManager} (h : WellFormed em)
    (K : EventType) :
    em.update.subscriptions K =
      applyUnsubscriptions (em.subscriptions K) (em.pendingUnsubscriptions K)
        ++ em.pendingSubscriptions K := by
  unfold update
  by_cases hp : em.anyPending = true
  · simp [hp]
  · have hf : em.anyPending = false := by simpa using hp
    obtain ⟨h1, h2⟩ := h.flag K hf
    simp [hp, h1, h2, applyUnsubscriptions]

theorem applyUnsubscriptions_perm_filter (live : List Subscription)
    (pending : List LuaScriptRunner) (hnd : (keys live).Nodup) :
    (applyUnsubscriptions live pending).Perm
      (live.filter (fun s => !pending.contains s.subscriber)) := by
  induction pending generalizing live with
  | nil => simp [applyUnsubscriptions]
  | cons y rest ih =>
    simp only [applyUnsubscriptions, List.foldl_cons]
    have h1 := ih (removeFirst (fun s => s.subscriber == y) live)
      (nodup_keys_removeFirst _ live hnd)
    simp only [applyUnsubscriptions] at h1
    have h2 := (removeFirst_perm_filter Subscription.subscriber y _ (subscriberPred y) live
      hnd).filter (fun s => !rest.contains s.subscriber)
    refine (h1.trans h2).trans ?_
    rw [List.filter_filter]
    apply List.Perm.of_eq
    apply List.filter_congr
    intro s _
    simp only [List.contains_cons]
    cases h3 : (s.subscriber == y) <;> cases h4 : rest.contains s.subscriber <;> simp [h3, h4]

theorem applyUnsubscriptions_of_not_mem (live : List Subscription)
    (pending : List LuaScriptRunner)
    (h : ∀ s ∈ live, s.subscriber ∉ pending) : applyUnsubscriptions live pending = live := by
  induction pending with
  | nil => rfl
  | cons y rest ih =>
    simp only [applyUnsubscriptions, List.foldl_cons]
    have h1 : removeFirst (fun s => s.subscriber == y) live = live := by
      apply removeFirst_of_forall_false
      intro s hs
      have := h s hs
      simp only [List.mem_cons, not_or] at this
      simpa using this.1
    rw [h1]
    exact ih (fun s hs => fun hmem => h s hs (List.mem_cons_of_mem _ hmem))

theorem eq_of_mem_of_nodup_keys {l : List Subscription} (hnd : (keys l).Nodup)
    {s t : Subscription} (hs : s ∈ l) (ht : t ∈ l) (hk : s.subscriber = t.subscriber) :
    s = t :=
  List.inj_on_of_nodup_map hnd hs ht hk

theorem reachable_threeLive : Reachable threeLive :=
  Reachable.update (Reachable.subscribe _ _ _ _ _ (Reachable.subscribe _ _ _ _ _
    (Reachable.subscribe _ _ _ _ _ Reachable.initial)))

theorem reachable_firstLeaving : Reachable firstLeaving :=
  Reachable.unsubscribe _ _ reachable_threeLive

/-- C1: `subscribe(X, K, c, failSilently)` and `unsubscribe(X, K)` leave the live list of
every event kind exactly as it was, leave the pending-subscribe and pending-unsubscribe
lists of every other kind as they were, and do not touch the pause state; only the two
staging lists of `K` and `anyPending` may change. -/
theorem EventManager.subscribe_unsubscribe_frame (em : EventManager)
    (loadFunction : LuaScriptRunner → EventType → Bool) (X : LuaScriptRunner) (K : EventType)
    (c : ScriptContext) (failSilently : Bool) :
    (em.subscribe loadFunction X K c failSilently).subscriptions = em.subscriptions ∧
    (em.unsubscribe X K).subscriptions = em.subscriptions ∧
    (∀ K', K' ≠ K →
      (em.subscribe loadFunction X K c failSilently).pendingSubscriptions K'
          = em.pendingSubscriptions K' ∧
      (em.subscribe loadFunction X K c failSilently).pendingUnsubscriptions K'
          = em.pendingUnsubscriptions K' ∧
      (em.unsubscribe X K).pendingSubscriptions K' = em.pendingSubscriptions K' ∧
      (em.unsubscribe X K).pendingUnsubscriptions K' = em.pendingUnsubscriptions K') ∧
    (em.subscribe loadFunction X K c failSilently).mIsPaused = em.mIsPaused ∧
    (em.subscribe loadFunction X K c failSilently).mStepCount = em.mStepCount ∧
    (em.unsubscribe X K).mIsPaused = em.mIsPaused ∧
    (em.unsubscribe X K).mStepCount = em.mStepCount := by
  rcases subscribe_cases em loadFunction X K c failSilently with hs | ⟨_, _, _, hs⟩ <;>
  rcases unsubscribe_cases em X K with hu | ⟨_, _, hu⟩ <;>
  · rw [hs, hu]
    refine ⟨rfl, rfl, ?_, rfl, rfl, rfl, rfl⟩
    intro K' hK
    simp [setAt_other _ _ _ hK]

/-- C1 at a concrete input: on the state with live Tick list 1, 2, 3, subscribing 4 to
Tick or unsubscribing 1 from Tick leaves every live list and the lists of ShipSpawned
untouched. -/
theorem EventManager.subscribe_unsubscribe_frame_witness :
    (threeLive.subscribe everyHandler 4 EventType.TickEvent ScriptContext.RobotContext
        false).subscriptions = threeLive.subscriptions ∧
    (threeLive.unsubscribe 1 EventType.TickEvent).subscriptions = threeLive.subscriptions ∧
    (threeLive.unsubscribe 1 EventType.TickEvent).pendingUnsubscriptions
        EventType.ShipSpawnedEvent = threeLive.pendingUnsubscriptions EventType.ShipSpawnedEvent :=
  have h := EventManager.subscribe_unsubscribe_frame threeLive everyHandler 4
    EventType.TickEvent ScriptContext.RobotContext false
  have h1 := EventManager.subscribe_unsubscribe_frame threeLive everyHandler 1
    EventType.TickEvent ScriptContext.RobotContext false
  ⟨h.1, h1.2.1, (h1.2.2.1 EventType.ShipSpawnedEvent (by decide)).2.2.2⟩

/-- C8, as stated, fails: with live Tick list 1, 2, 3 and subscriber 1 queued for
removal (a reachable state), `update` leaves the live list 3, 2, not 2, 3: the survivors
do not keep their relative order. -/
theorem EventManager.update_order_counterexample :
    Reachable firstLeaving ∧
    keys (firstLeaving.subscriptions EventType.TickEvent) = [1, 2, 3] ∧
    firstLeaving.pendingUnsubscriptions EventType.TickEvent = [1] ∧
    firstLeaving.pendingSubscriptions EventType.TickEvent = [] ∧
    keys (firstLeaving.update.subscriptions EventType.TickEvent) = [3, 2] ∧
    firstLeaving.update.subscriptions EventType.TickEvent ≠
      (firstLeaving.subscriptions EventType.TickEvent).filter
          (fun s => !(firstLeaving.pendingUnsubscriptions EventType.TickEvent).contains
            s.subscriber)
        ++ firstLeaving.pendingSubscriptions EventType.TickEvent :=
  ⟨reachable_firstLeaving, by decide, by decide, by decide, by decide, by decide⟩

/-- C8, amended: in a reachable state, after `update` the live list of `K` is the list of
the previous live entries whose subscriber is not queued for removal, each once but
possibly in another order (every removal moves the last live entry into the freed slot),
followed by the entries of the pending-subscribe list in their order. When no live
subscriber is queued for removal the previous order is kept; when exactly one is, the
entries before it stay and the last entry takes its place. -/
theorem EventManager.update_live_list (em : EventManager) (h : Reachable em) (K : EventType) :
    ∃ kept : List Subscription,
      em.update.subscriptions K = kept ++ em.pendingSubscriptions K ∧
      kept.Perm ((em.subscriptions K).filter
        (fun s => !(em.pendingUnsubscriptions K).contains s.subscriber)) ∧
      ((∀ s ∈ em.subscriptions K, s.subscriber ∉ em.pendingUnsubscriptions K) →
        kept = em.subscriptions K) ∧
      (∀ X before x after, em.pendingUnsubscriptions K = [X] →
        em.subscriptions K = before ++ x :: after → x.subscriber = X →
        kept = before ++ lastToFront after) := by
  have hwf := h.wellFormed
  refine ⟨applyUnsubscriptions (em.subscriptions K) (em.pendingUnsubscriptions K),
    update_subscriptions_of_wellFormed hwf K,
    applyUnsubscriptions_perm_filter _ _ (hwf.live_nodup K),
    applyUnsubscriptions_of_not_mem _ _, ?_⟩
  intro X before x after hrem hlive hx
  rw [hrem, hlive]
  simp only [applyUnsubscriptions, List.foldl_cons, List.foldl_nil]
  apply removeFirst_append_cons
  · intro y hy
    have hnd := hwf.live_nodup K
    rw [hlive, keys_append] at hnd
    have hdis := (List.nodup_append.mp hnd).2.2
    cases hyX : (y.subscriber == X) with
    | false => rfl
    | true =>
      exfalso
      have hyX' : y.subscriber = X := by simpa using hyX
      have hin1 : X ∈ keys before := by
        rw [← hyX']; exact List.mem_map_of_mem _ hy
      have hin2 : X ∈ keys (x :: after) := by
        rw [← hx]; simp [keys]
      exact hdis hin1 hin2
  · simp [hx]

/-- C8 amended, at a concrete input: the reachable state with live Tick list 1, 2, 3 and
subscriber 1 queued for removal. -/
theorem EventManager.update_live_list_witness :
    ∃ kept : List Subscription,
      firstLeaving.update.subscriptions EventType.TickEvent
        = kept ++ firstLeaving.pendingSubscriptions EventType.TickEvent ∧
      kept.Perm ((firstLeaving.subscriptions EventType.TickEvent).filter
        (fun s => !(firstLeaving.pendingUnsubscriptions EventType.TickEvent).contains
          s.subscriber)) :=
  have ⟨kept, h1, h2, _⟩ :=
    EventManager.update_live_list firstLeaving reachable_firstLeaving EventType.TickEvent
  ⟨kept, h1, h2⟩

theorem mem_keys_update_iff {em : EventManager} (h : WellFormed em) (K : EventType)
    (X : LuaScriptRunner) :
    X ∈ keys (em.update.subscriptions K) ↔
      X ∈ keys (em.pendingSubscriptions K) ∨
        (X ∈ keys (em.subscriptions K) ∧ X ∉ em.pendingUnsubscriptions K) := by
  rw [update_subscriptions_of_wellFormed h K, keys_append, List.mem_append,
    mem_keys_applyUnsubscriptions_iff _ _ (h.live_nodup K)]
  tauto

/-- C9: in a reachable state, after `update` a subscriber is in the live list of `K`
exactly when it was queued for subscription to `K`, or was live and not queued for
removal; every queued subscription is live afterwards and is the only live entry of its
subscriber, so it carries the context it was subscribed with; and a subscriber that was
live and queued for removal is no longer live. -/
theorem EventManager.update_membership (em : EventManager) (h : Reachable em) (K : EventType)
    (X : LuaScriptRunner) :
    (em.update.isSubscribed X K = true ↔
      (em.isPendingSubscribed X K = true ∨
        (em.isSubscribed X K = true ∧ em.isPendingUnsubscribed X K = false))) ∧
    (∀ s ∈ em.pendingSubscriptions K,
      s ∈ em.update.subscriptions K ∧
      ∀ t ∈ em.update.subscriptions K, t.subscriber = s.subscriber → t = s) ∧
    (em.isSubscribed X K = true → em.isPendingUnsubscribed X K = true →
      em.update.isSubscribed X K = false) := by
  have hwf := h.wellFormed
  have hmem := mem_keys_update_iff hwf K X
  have hpu : em.isPendingUnsubscribed X K = false ↔ X ∉ em.pendingUnsubscriptions K := by
    rw [← Bool.not_eq_true, isPendingUnsubscribed_iff]
  refine ⟨?_, ?_, ?_⟩
  · rw [isSubscribed_iff, isPendingSubscribed_iff, isSubscribed_iff, hpu]
    exact hmem
  · intro s hs
    have hin : s ∈ em.update.subscriptions K := by
      rw [update_subscriptions_of_wellFormed hwf K]
      exact List.mem_append_right _ hs
    refine ⟨hin, ?_⟩
    intro t ht hk
    exact eq_of_mem_of_nodup_keys ((wellFormed_update hwf).live_nodup K) ht hin hk
  · intro h1 h2
    rw [isSubscribed_iff] at h1
    rw [isPendingUnsubscribed_iff] at h2
    rw [← Bool.not_eq_true, isSubscribed_iff, hmem]
    rintro (h3 | h3)
    · exact hwf.add_not_live K X h3 h1
    · exact h3.2 h2

/-- C9 at a concrete input: the reachable state with live Tick list 1, 2, 3 and
subscriber 1 queued for removal; after `update` subscriber 1 is not live. -/
theorem EventManager.update_membership_witness :
    firstLeaving.isSubscribed 1 EventType.TickEvent = true ∧
    firstLeaving.isPendingUnsubscribed 1 EventType.TickEvent = true ∧
    firstLeaving.update.isSubscribed 1 EventType.TickEvent = false :=
  ⟨by decide, by decide,
    (EventManager.update_membership firstLeaving reachable_firstLeaving EventType.TickEvent
      1).2.2 (by decide) (by decide)⟩

/-- What one request of another subscriber does to the tables of `K`, when it removes
nothing from the pending-subscribe list. -/
theorem request_keepQueue (em : EventManager) (r : Request) (K : EventType)
    (hq : ∀ x k, r = Request.unsubscribe x k → k = K → em.isPendingSubscribed x K = false) :
    ∃ extra : List Subscription,
      (em.request r).pendingSubscriptions K = em.pendingSubscriptions K ++ extra ∧
      (∀ s ∈ extra, s.subscriber = r.subscriber) ∧
      (em.request r).subscriptions = em.subscriptions ∧
      (em.anyPending = true → (em.request r).anyPending = true) := by
  cases r with
  | subscribe lf x k c fs =>
    simp only [EventManager.request, Request.subscriber]
    rcases subscribe_cases em lf x k c fs with heq | ⟨_, _, _, heq⟩
    · rw [heq]; exact ⟨[], by simp, by simp, rfl, id⟩
    · rw [heq]
      by_cases hk : K = k
      · subst hk
        exact ⟨[{ subscriber := x, context := c }], by simp [setAt_same], by simp, rfl,
          fun _ => rfl⟩
      · exact ⟨[], by simp [setAt_other _ _ _ hk], by simp, rfl, fun _ => rfl⟩
  | unsubscribe x k =>
    simp only [EventManager.request, Request.subscriber]
    rcases unsubscribe_cases em x k with heq | ⟨_, _, heq⟩
    · rw [heq]; exact ⟨[], by simp, by simp, rfl, id⟩
    · rw [heq]
      by_cases hk : K = k
      · subst hk
        have hnot := hq x K rfl rfl
        have hx : x ∉ keys (em.pendingSubscriptions K) := by
          rw [← isPendingSubscribed_iff, hnot]; simp
        have hsame : removeFirst (fun s => s.subscriber == x) (em.pendingSubscriptions K)
            = em.pendingSubscriptions K := by
          apply removeFirst_of_forall_false
          intro s hs
          cases hsx : (s.subscriber == x) with
          | false => rfl
          | true =>
            exfalso
            apply hx
            have : s.subscriber = x := by simpa using hsx
            rw [← this]
            exact List.mem_map_of_mem _ hs
        exact ⟨[], by simp [setAt_same, hsame], by simp, rfl, fun _ => rfl⟩
      · exact ⟨[], by simp [setAt_other _ _ _ hk], by simp, rfl, fun _ => rfl⟩

/-- What a sequence of such requests does to the tables of `K`. -/
theorem requests_keepQueue (A B : LuaScriptRunner) (K : EventType) (rs : List Request)
    (em : EventManager) (h : othersKeepQueue A B K em rs = true) :
    ∃ extra : List Subscription,
      (em.requests rs).pendingSubscriptions K = em.pendingSubscriptions K ++ extra ∧
      (∀ s ∈ extra, s.subscriber ≠ A ∧ s.subscriber ≠ B) ∧
      (em.requests rs).subscriptions = em.subscriptions ∧
      (em.anyPending = true → (em.requests rs).anyPending = true) := by
  induction rs generalizing em with
  | nil => exact ⟨[], by simp [EventManager.requests], by simp, rfl, id⟩
  | cons r rest ih =>
    simp only [othersKeepQueue, Bool.and_eq_true, bne_iff_ne, ne_eq] at h
    obtain ⟨⟨⟨hA, hB⟩, hq⟩, hrest⟩ := h
    have hq' : ∀ x k, r = Request.unsubscribe x k → k = K →
        em.isPendingSubscribed x K = false := by
      intro x k hr hk
      subst hr
      simp [hk] at hq
      exact hq
    obtain ⟨e1, h1, h2, h3, h4⟩ := request_keepQueue em r K hq'
    obtain ⟨e2, g1, g2, g3, g4⟩ := ih (em.request r) hrest
    refine ⟨e1 ++ e2, ?_, ?_, ?_, ?_⟩
    · simp only [EventManager.requests, List.foldl_cons] at g1 ⊢
      rw [g1, h1, List.append_assoc]
    · intro s hs
      rcases List.mem_append.mp hs with hs | hs
      · rw [h2 s hs]; exact ⟨hA, hB⟩
      · exact g2 s hs
    · simp only [EventManager.requests, List.foldl_cons] at g3 ⊢
      rw [g3, h3]
    · intro hp
      simp only [EventManager.requests, List.foldl_cons] at g4 ⊢
      exact g4 (h4 hp)

theorem reachable_request {em : EventManager} (h : Reachable em) (r : Request) :
    Reachable (em.request r) := by
  cases r with
  | subscribe lf x k c fs => exact Reachable.subscribe lf x k c fs h
  | unsubscribe x k => exact Reachable.unsubscribe x k h

theorem reachable_requests {em : EventManager} (h : Reachable em) (rs : List Request) :
    Reachable (em.requests rs) := by
  induction rs generalizing em with
  | nil => exact h
  | cons r rest ih =>
    simp only [EventManager.requests, List.foldl_cons]
    exact ih (reachable_request h r)

theorem reachable_nineQueued : Reachable nineQueued :=
  Reachable.subscribe _ _ _ _ _ (Reachable.update Reachable.initial)

theorem subscribe_taken (em : EventManager) (lf : LuaScriptRunner → EventType → Bool)
    (X : LuaScriptRunner) (K : EventType) (c : ScriptContext) (fs : Bool)
    (h0 : em.isSubscribed X K = false) (h1 : em.isPendingSubscribed X K = false)
    (h2 : lf X K = true) :
    (em.subscribe lf X K c fs).pendingSubscriptions K
        = em.pendingSubscriptions K ++ [{ subscriber := X, context := c }] ∧
    (em.subscribe lf X K c fs).subscriptions = em.subscriptions ∧
    (em.subscribe lf X K c fs).anyPending = true := by
  simp [subscribe, h0, h1, h2, removeFromPendingUnsubscribeList, setAt_same]

/-- C10, as stated, fails: between two commits subscriber 9 subscribes to Tick, then 4
(`A`), then 5 (`B`), then 9 unsubscribes; neither 4 nor 5 is unsubscribed, yet after the
commit 5 precedes 4 in the live list, because removing 9 from the pending-subscribe list
moved its last entry, 5, into the first slot. -/
theorem EventManager.subscribe_order_counterexample :
    Reachable nineQueued ∧
    nineQueued.isSubscribed 4 EventType.TickEvent = false ∧
    nineQueued.isPendingSubscribed 4 EventType.TickEvent = false ∧
    nineQueued.isPendingUnsubscribed 4 EventType.TickEvent = false ∧
    nineQueued.isSubscribed 5 EventType.TickEvent = false ∧
    nineQueued.isPendingSubscribed 5 EventType.TickEvent = false ∧
    nineQueued.isPendingUnsubscribed 5 EventType.TickEvent = false ∧
    nineLeft =
      (((nineQueued.subscribe everyHandler 4 EventType.TickEvent ScriptContext.RobotContext
        false).subscribe everyHandler 5 EventType.TickEvent ScriptContext.RobotContext
        false).unsubscribe 9 EventType.TickEvent).update ∧
    keys (nineLeft.subscriptions EventType.TickEvent) = [5, 4] ∧
    ¬ List.Sublist [4, 5] (keys (nineLeft.subscriptions EventType.TickEvent)) :=
  ⟨reachable_nineQueued, by decide, by decide, by decide, by decide, by decide, by decide,
    rfl, by decide, by decide⟩

/-- C10, amended: from a reachable state in which `A` and `B` are neither live nor queued
for `K`, let `subscribe(A, K, _)` be called, then requests of other subscribers, then
`subscribe(B, K, _)`, then again requests of other subscribers, then `update`, where both
scripts define the handler and no request unsubscribes from `K` a subscriber that is in
the pending-subscribe list of `K` at that moment. Then `A` precedes `B` in the live list
of `K`, in which no subscriber occurs twice. -/
theorem EventManager.subscribe_order_kept (em : EventManager) (hreach : Reachable em)
    (loadFunction : LuaScriptRunner → EventType → Bool) (A B : LuaScriptRunner) (K : EventType)
    (cA cB : ScriptContext) (fsA fsB : Bool) (between after : List Request)
    (hA : loadFunction A K = true) (hB : loadFunction B K = true) (hAB : A ≠ B)
    (hA0 : em.isSubscribed A K = false) (hA1 : em.isPendingSubscribed A K = false)
    (hB0 : em.isSubscribed B K = false) (hB1 : em.isPendingSubscribed B K = false)
    (h1 : othersKeepQueue A B K (em.subscribe loadFunction A K cA fsA) between = true)
    (h2 : othersKeepQueue A B K
      (((em.subscribe loadFunction A K cA fsA).requests between).subscribe loadFunction B K cB
        fsB) after = true) :
    List.Sublist [A, B]
      (keys (((((em.subscribe loadFunction A K cA fsA).requests between).subscribe
        loadFunction B K cB fsB).requests after).update.subscriptions K)) ∧
    (keys (((((em.subscribe loadFunction A K cA fsA).requests between).subscribe
        loadFunction B K cB fsB).requests after).update.subscriptions K)).Nodup := by
  have np : ∀ (e : EventManager) (X : LuaScriptRunner),
      e.isPendingSubscribed X K = false → X ∉ keys (e.pendingSubscriptions K) := by
    intro e X h; rw [← isPendingSubscribed_iff, h]; simp
  -- subscribe(A)
  obtain ⟨p1, s1, f1⟩ := subscribe_taken em loadFunction A K cA fsA hA0 hA1 hA
  -- the requests in between
  obtain ⟨e1, p2, o2, s2, f2⟩ := requests_keepQueue A B K between _ h1
  -- subscribe(B)
  have hBlive : ((em.subscribe loadFunction A K cA fsA).requests between).isSubscribed B K
      = false := by
    simp only [isSubscribed, s2, s1]; exact hB0
  have hBpend : ((em.subscribe loadFunction A K cA fsA).requests between).isPendingSubscribed
      B K = false := by
    rw [← Bool.not_eq_true, isPendingSubscribed_iff, p2, p1]
    simp only [keys_append, List.mem_append, not_or]
    refine ⟨⟨np em B hB1, ?_⟩, ?_⟩
    · simp [keys]; exact fun h => hAB h.symm
    · intro hmem
      simp only [keys, List.mem_map] at hmem
      obtain ⟨s, hs, hsB⟩ := hmem
      exact (o2 s hs).2 hsB
  obtain ⟨p3, s3, f3⟩ := subscribe_taken _ loadFunction B K cB fsB hBlive hBpend hB
  -- the requests after
  obtain ⟨e2, p4, _, _, f4⟩ := requests_keepQueue A B K after _ h2
  have hreach4 : Reachable ((((em.subscribe loadFunction A K cA fsA).requests between).subscribe
      loadFunction B K cB fsB).requests after) :=
    reachable_requests (Reachable.subscribe _ _ _ _ _
      (reachable_requests (Reachable.subscribe _ _ _ _ _ hreach) between)) after
  refine ⟨?_, (wellFormed_update hreach4.wellFormed).live_nodup K⟩
  rw [update_subscriptions_of_wellFormed hreach4.wellFormed K, p4, p3, p2, p1]
  simp only [keys_append]
  have hsub : List.Sublist [A, B]
      (keys [({ subscriber := A, context := cA } : Subscription)] ++ keys e1
        ++ keys [({ subscriber := B, context := cB } : Subscription)]) := by
    have hmid : List.Sublist ([A] ++ [] ++ [B])
        ([A] ++ List.map Subscription.subscriber e1 ++ [B]) :=
      List.Sublist.append (List.Sublist.append (List.Sublist.refl _) (List.nil_sublist _))
        (List.Sublist.refl _)
    exact hmid
  have hfull : List.Sublist [A, B]
      (keys (em.pendingSubscriptions K) ++
        (keys [({ subscriber := A, context := cA } : Subscription)] ++ keys e1
          ++ keys [({ subscriber := B, context := cB } : Subscription)])) :=
    List.sublist_append_of_sublist_right hsub
  have hfull2 : List.Sublist [A, B]
      (keys (em.pendingSubscriptions K) ++
        (keys [({ subscriber := A, context := cA } : Subscription)] ++ keys e1
          ++ keys [({ subscriber := B, context := cB } : Subscription)]) ++ keys e2) :=
    List.sublist_append_of_sublist_left hfull
  refine List.sublist_append_of_sublist_right ?_
  simpa [List.append_assoc] using hfull2

/-- C10 amended, at a concrete input: from the initial state subscriber 4 subscribes to
Tick, then 7 subscribes, then 5 subscribes, then the live-free subscriber 8 asks to
unsubscribe, then the commit: 4 precedes 5. -/
theorem EventManager.subscribe_order_kept_witness :
    List.Sublist [4, 5]
      (keys (((((EventManager.initial.subscribe everyHandler 4 EventType.TickEvent
        ScriptContext.RobotContext false).requests
          [Request.subscribe everyHandler 7 EventType.TickEvent ScriptContext.LevelgenContext
            false]).subscribe everyHandler 5 EventType.TickEvent ScriptContext.RobotContext
        false).requests [Request.unsubscribe 8 EventType.TickEvent]).update.subscriptions
        EventType.TickEvent)) :=
  (EventManager.subscribe_order_kept EventManager.initial Reachable.initial everyHandler 4 5
    EventType.TickEvent ScriptContext.RobotContext ScriptContext.RobotContext false false
    [Request.subscribe everyHandler 7 EventType.TickEvent ScriptContext.LevelgenContext false]
    [Request.unsubscribe 8 EventType.TickEvent]
    rfl rfl (by decide) (by decide) (by decide) (by decide) (by decide) (by decide)
    (by decide)).1

theorem invocations_append (t u : List Effect) :
    invocations (t ++ u) = invocations t ++ invocations u := by
  induction t with
  | nil => rfl
  | cons e rest ih => cases e <;> simp [invocations, ih]

theorem deletions_append (t u : List Effect) :
    deletions (t ++ u) = deletions t ++ deletions u := by
  induction t with
  | nil => rfl
  | cons e rest ih => cases e <;> simp [deletions, ih]

theorem invocations_push (args : List LuaValue) : invocations (args.map Effect.push) = [] := by
  induction args with
  | nil => rfl
  | cons a rest ih => simp [invocations, ih]

theorem deletions_push (args : List LuaValue) : deletions (args.map Effect.push) = [] := by
  induction args with
  | nil => rfl
  | cons a rest ih => simp [deletions, ih]

/-- The call of `fire` always returns: a handler that throws is caught and logged. The new
state is the one the handler left; the trace gains the call and at most a log line. -/
theorem fire_normal (scripts : Scripts) (r : LuaScriptRunner) (K : EventType)
    (c : ScriptContext) (w : World) :
    ∃ (b : Bool) (w1 : World), fire scripts r K c w = Completion.normal b w1 ∧
      w1.em = (scripts r K w.em).2 ∧
      invocations w1.trace = invocations w.trace ++ [{ subscriber := r, context := c }] ∧
      deletions w1.trace = deletions w.trace := by
  unfold fire callRunFunction
  simp only [World.emit]
  rcases hres : scripts r K w.em with ⟨res, em1⟩
  cases res with
  | returned b =>
    exact ⟨b, _, rfl, rfl, by simp [invocations_append, invocations],
      by simp [deletions_append, deletions]⟩
  | threw e =>
    exact ⟨false, _, rfl, rfl, by simp [invocations_append, invocations],
      by simp [deletions_append, deletions]⟩

theorem zoneLoop_eq_dispatchLoop (scripts : Scripts) (K : EventType) (args : List LuaValue)
    (fuel i : Nat) (w : World) :
    zoneLoop scripts K args fuel i w = dispatchLoop scripts K (fun _ => false) args fuel i w := by
  induction fuel generalizing i w with
  | zero => rfl
  | succ n ih =>
    unfold zoneLoop dispatchLoop
    cases hget : (w.em.subscriptions K)[i]? with
    | none => rfl
    | some sub =>
      obtain ⟨b, w1, hf, _⟩ := fire_normal scripts sub.subscriber K sub.context (w.pushAll args)
      simp only [hf, Bool.false_eq_true, if_false]
      exact ih (i + 1) w1

/-- Every overload is the suppression test followed by the shared loop. -/
theorem FireCall.run_eq (scripts : Scripts) (fuel : Nat) (w : World) (call : FireCall) :
    call.run scripts fuel w =
      if w.em.suppressEvents call.eventType then Outcome.returned w
      else dispatchLoop scripts call.eventType call.skips call.args fuel 0 (call.enter w) := by
  cases call <;>
    simp only [FireCall.run, fireEvent, fireEventDeltaT, fireEventCore, fireEventShip,
      fireEventShipKilled, fireEventMessage, fireEventPlayer, fireEventZone, fireEventScore,
      FireCall.eventType, FireCall.args, FireCall.enter, zoneLoop_eq_dispatchLoop] <;>
    rfl

theorem pushAll_em (w : World) (args : List LuaValue) : (w.pushAll args).em = w.em := rfl

theorem invocations_pushAll (w : World) (args : List LuaValue) :
    invocations (w.pushAll args).trace = invocations w.trace := by
  simp [World.pushAll, invocations_append, invocations_push]

theorem deletions_pushAll (w : World) (args : List LuaValue) :
    deletions (w.pushAll args).trace = deletions w.trace := by
  simp [World.pushAll, deletions_append, deletions_push]

/-- The shared loop never lets an exception out and never faults; when it returns, no
script runner has been deleted. -/
theorem dispatchLoop_safe (scripts : Scripts) (K : EventType) (skip : LuaScriptRunner → Bool)
    (args : List LuaValue) (fuel i : Nat) (w : World) :
    dispatchLoop scripts K skip args fuel i w = Outcome.unfinished ∨
      ∃ w', dispatchLoop scripts K skip args fuel i w = Outcome.returned w' ∧
        deletions w'.trace = deletions w.trace := by
  induction fuel generalizing i w with
  | zero => exact Or.inl rfl
  | succ n ih =>
    unfold dispatchLoop
    cases hget : (w.em.subscriptions K)[i]? with
    | none => exact Or.inr ⟨w, rfl, rfl⟩
    | some sub =>
      by_cases hskip : skip sub.subscriber = true
      · simp only [hskip, if_true]
        exact ih (i + 1) w
      · obtain ⟨b, w1, hf, _, _, hdel⟩ :=
          fire_normal scripts sub.subscriber K sub.context (w.pushAll args)
        simp only [hskip, hf, if_false]
        rcases ih (i + 1) w1 with h | ⟨w', h, hd⟩
        · exact Or.inl h
        · exact Or.inr ⟨w', h, by rw [hd, hdel, deletions_pushAll]⟩

/-- The shared loop when the handlers of the live subscribers leave the live list of the
event kind as it is: with more fuel than entries left it returns, having run the handler
of every entry from `i` on that is not passed over, in order. -/
theorem dispatchLoop_stable (scripts : Scripts) (K : EventType) (skip : LuaScriptRunner → Bool)
    (args : List LuaValue) (L : List Subscription)
    (hst : ∀ s ∈ L, ∀ em : EventManager,
      ((scripts s.subscriber K em).2).subscriptions K = em.subscriptions K)
    (fuel i : Nat) (w : World) (hL : w.em.subscriptions K = L) (hi : i ≤ L.length)
    (hfuel : L.length < fuel + i) :
    ∃ w', dispatchLoop scripts K skip args fuel i w = Outcome.returned w' ∧
      w'.em = afterHandlers scripts K w.em ((L.drop i).filter (fun s => !skip s.subscriber)) ∧
      invocations w'.trace
        = invocations w.trace ++ (L.drop i).filter (fun s => !skip s.subscriber) ∧
      deletions w'.trace = deletions w.trace := by
  induction fuel generalizing i w with
  | zero => omega
  | succ n ih =>
    unfold dispatchLoop
    cases hget : (w.em.subscriptions K)[i]? with
    | none =>
      rw [hL] at hget
      have hlen : L.length ≤ i := List.getElem?_eq_none_iff.mp hget
      have hdrop : L.drop i = [] := List.drop_eq_nil_of_le hlen
      exact ⟨w, rfl, by simp [hdrop, afterHandlers], by simp [hdrop], rfl⟩
    | some sub =>
      rw [hL] at hget
      obtain ⟨hlt, hsub⟩ := List.getElem?_eq_some_iff.mp hget
      have hmem : sub ∈ L := by rw [← hsub]; exact List.getElem_mem hlt
      have hdrop : L.drop i = sub :: L.drop (i + 1) := by
        rw [← hsub]; exact List.drop_eq_getElem_cons hlt
      by_cases hskip : skip sub.subscriber = true
      · simp only [hskip, if_true]
        obtain ⟨w', h1, h2, h3, h4⟩ := ih (i + 1) w hL (by omega) (by omega)
        refine ⟨w', h1, ?_, ?_, h4⟩
        · rw [h2, hdrop]; simp [hskip]
        · rw [h3, hdrop]; simp [hskip]
      · obtain ⟨b, w1, hf, hem, hinv, hdel⟩ :=
          fire_normal scripts sub.subscriber K sub.context (w.pushAll args)
        simp only [hskip, hf, if_false]
        rw [pushAll_em] at hem
        have hL1 : w1.em.subscriptions K = L := by
          rw [hem, hst sub hmem w.em, hL]
        obtain ⟨w', h1, h2, h3, h4⟩ := ih (i + 1) w1 hL1 (by omega) (by omega)
        refine ⟨w', h1, ?_, ?_, ?_⟩
        · rw [h2, hdrop, hem]; simp [hskip, afterHandlers]
        · rw [h3, hinv, invocations_pushAll, hdrop]; simp [hskip]
        · rw [h4, hdel, deletions_pushAll]

theorem FireCall.enter_subscriptions (call : FireCall) (w : World) :
    (call.enter w).em.subscriptions = w.em.subscriptions := by
  cases call <;> simp only [FireCall.enter]
  split <;> rfl

theorem FireCall.enter_trace (call : FireCall) (w : World) :
    (call.enter w).trace = w.trace := by
  cases call <;> simp only [FireCall.enter]
  split <;> rfl

/-- Any overload, not suppressed, with handlers that leave the live list of the event kind
as it is and more fuel than live entries: the call returns, having run the handler of
every live entry that is not passed over, in live order, each under its own context, and
having deleted nobody. -/
theorem FireCall.run_stable (scripts : Scripts) (call : FireCall) (fuel : Nat) (w : World)
    (hsupp : w.em.suppressEvents call.eventType = false)
    (hst : ∀ s ∈ w.em.subscriptions call.eventType, ∀ em : EventManager,
      ((scripts s.subscriber call.eventType em).2).subscriptions call.eventType
        = em.subscriptions call.eventType)
    (hfuel : (w.em.subscriptions call.eventType).length < fuel) :
    ∃ w', call.run scripts fuel w = Outcome.returned w' ∧
      w'.em = afterHandlers scripts call.eventType (call.enter w).em
        ((w.em.subscriptions call.eventType).filter (fun s => !call.skips s.subscriber)) ∧
      invocations w'.trace = invocations w.trace ++
        (w.em.subscriptions call.eventType).filter (fun s => !call.skips s.subscriber) ∧
      deletions w'.trace = deletions w.trace := by
  rw [FireCall.run_eq, hsupp]
  simp only [Bool.false_eq_true, if_false]
  have hL : (call.enter w).em.subscriptions call.eventType = w.em.subscriptions call.eventType := by
    rw [FireCall.enter_subscriptions]
  obtain ⟨w', h1, h2, h3, h4⟩ := dispatchLoop_stable scripts call.eventType call.skips call.args
    (w.em.subscriptions call.eventType) hst fuel 0 (call.enter w) hL (Nat.zero_le _)
    (by omega)
  rw [FireCall.enter_trace] at h3 h4
  exact ⟨w', h1, by simpa using h2, by simpa using h3, h4⟩

/-- Any overload: the call never ends by an exception or a fault, and when it returns no
script runner has been deleted. -/
theorem FireCall.run_safe (scripts : Scripts) (call : FireCall) (fuel : Nat) (w : World) :
    call.run scripts fuel w = Outcome.unfinished ∨
      ∃ w', call.run scripts fuel w = Outcome.returned w' ∧
        deletions w'.trace = deletions w.trace := by
  rw [FireCall.run_eq]
  by_cases hsupp : w.em.suppressEvents call.eventType = true
  · simp only [hsupp, if_true]
    exact Or.inr ⟨w, rfl, rfl⟩
  · simp only [hsupp, if_false]
    rcases dispatchLoop_safe scripts call.eventType call.skips call.args fuel 0 (call.enter w)
      with h | ⟨w', h, hd⟩
    · exact Or.inl h
    · exact Or.inr ⟨w', h, by rw [hd, FireCall.enter_trace]⟩

theorem FireCall.skips_of_sender_none {call : FireCall} (h : call.sender? = none)
    (x : LuaScriptRunner) : call.skips x = false := by
  simp [FireCall.skips, h]

theorem FireCall.skips_of_sender_some {call : FireCall} {sender : LuaScriptRunner}
    (h : call.sender? = some sender) (x : LuaScriptRunner) :
    call.skips x = (sender == x) := by
  simp [FireCall.skips, h]

/-- C3: whatever the handlers do (succeed, make `runFunction` return an error, throw a
`LuaException`), `fire` returns to its caller, and no `fireEvent` overload ends by an
exception or a fault; and when the handlers leave the live list of the fired kind as it is,
every overload returns once given more iterations than there are live entries. -/
theorem EventManager.fireEvent_returns_normally (scripts : Scripts) (call : FireCall)
    (fuel : Nat) (w : World) :
    (∀ r c, ∃ (b : Bool) (w1 : World), fire scripts r call.eventType c w = Completion.normal b w1) ∧
    (∀ e w', call.run scripts fuel w ≠ Outcome.threw e w') ∧
    (∀ w', call.run scripts fuel w ≠ Outcome.fault w') ∧
    ((∀ s ∈ w.em.subscriptions call.eventType, ∀ em : EventManager,
        ((scripts s.subscriber call.eventType em).2).subscriptions call.eventType
          = em.subscriptions call.eventType) →
      (w.em.subscriptions call.eventType).length < fuel →
      ∃ w', call.run scripts fuel w = Outcome.returned w') := by
  refine ⟨?_, ?_, ?_, ?_⟩
  · intro r c
    obtain ⟨b, w1, h, _⟩ := fire_normal scripts r call.eventType c w
    exact ⟨b, w1, h⟩
  · intro e w' h
    rcases FireCall.run_safe scripts call fuel w with h1 | ⟨w1, h1, _⟩ <;>
      rw [h1] at h <;> cases h
  · intro w' h
    rcases FireCall.run_safe scripts call fuel w with h1 | ⟨w1, h1, _⟩ <;>
      rw [h1] at h <;> cases h
  · intro hst hfuel
    by_cases hsupp : w.em.suppressEvents call.eventType = true
    · exact ⟨w, by rw [FireCall.run_eq, hsupp]; rfl⟩
    · obtain ⟨w', h, _⟩ := FireCall.run_stable scripts call fuel w (by simpa using hsupp) hst hfuel
      exact ⟨w', h⟩

/-- C3 at a concrete input: the ship-and-zone overload fired for Tick on the live list
1, 2, 3 where the handler of 2 throws returns normally. -/
theorem EventManager.fireEvent_returns_normally_witness :
    ∃ w', (FireCall.zone EventType.TickEvent 7 8 1 2).run secondThrows 4 threeLiveWorld
      = Outcome.returned w' :=
  (EventManager.fireEvent_returns_normally secondThrows (FireCall.zone EventType.TickEvent 7 8 1 2)
    4 threeLiveWorld).2.2.2 (by intro s _ em; simp only [secondThrows]; split <;> rfl)
    (by decide)

theorem secondThrows_stable (K : EventType) (s : Subscription) (em : EventManager) :
    ((secondThrows s.subscriber K em).2).subscriptions K = em.subscriptions K := by
  simp only [secondThrows]; split <;> rfl

theorem secondReportsError_stable (K : EventType) (s : Subscription) (em : EventManager) :
    ((secondReportsError s.subscriber K em).2).subscriptions K = em.subscriptions K := by
  simp only [secondReportsError]; split <;> rfl

/-- C4, as stated, fails: the live Tick list is 1, 2, 3, events are not suppressed, the
handler of 1 succeeds and the handler of 2 fails (by a thrown `LuaException`, or by an
error return of `runFunction`); one `fireEvent(TickEvent, deltaT)` still runs the handler
of 3 after those of 1 and 2. -/
theorem EventManager.fireEvent_failFast_counterexample :
    keys (threeLive.subscriptions EventType.TickEvent) = [1, 2, 3] ∧
    threeLive.suppressEvents EventType.TickEvent = false ∧
    (secondThrows 1 EventType.TickEvent threeLive).1 = RunResult.returned false ∧
    (secondThrows 2 EventType.TickEvent threeLive).1 = RunResult.threw "handler error" ∧
    (secondReportsError 1 EventType.TickEvent threeLive).1 = RunResult.returned false ∧
    (secondReportsError 2 EventType.TickEvent threeLive).1 = RunResult.returned true ∧
    ((fireEventDeltaT secondThrows 4 threeLiveWorld EventType.TickEvent 16).world?.map
      (fun w => keys (invocations w.trace))) = some [1, 2, 3] ∧
    ((fireEventDeltaT secondReportsError 4 threeLiveWorld EventType.TickEvent 16).world?.map
      (fun w => keys (invocations w.trace))) = some [1, 2, 3] ∧
    ((fireEventDeltaT secondThrows 4 threeLiveWorld EventType.TickEvent 16).world?.map
      (fun w => keys (invocations w.trace))) ≠ some [1, 2] :=
  ⟨by decide, by decide, by decide, by decide, by decide, by decide, by decide, by decide,
    by decide⟩

/-- C4, amended: a failing handler does not stop the dispatch. For every overload other
than the ship-and-zone one, when the event is not suppressed and the handlers leave the
live list as it is, the call runs the handler of every live entry (the sender apart), in
live order, whatever each handler returns or throws; in particular the entries after a
failing one are still notified. -/
theorem EventManager.fireEvent_continues_after_failure (scripts : Scripts) (call : FireCall)
    (fuel : Nat) (w : World) (hzone : call.isZone = false)
    (hsupp : w.em.suppressEvents call.eventType = false)
    (hst : ∀ s ∈ w.em.subscriptions call.eventType, ∀ em : EventManager,
      ((scripts s.subscriber call.eventType em).2).subscriptions call.eventType
        = em.subscriptions call.eventType)
    (hfuel : (w.em.subscriptions call.eventType).length < fuel) :
    ∃ w', call.run scripts fuel w = Outcome.returned w' ∧
      invocations w'.trace = invocations w.trace ++
        (w.em.subscriptions call.eventType).filter (fun s => !call.skips s.subscriber) ∧
      ∀ (before after : List Subscription) (failing later : Subscription),
        w.em.subscriptions call.eventType = before ++ failing :: after →
        (∀ em : EventManager,
          (scripts failing.subscriber call.eventType em).1 ≠ RunResult.returned false) →
        later ∈ after → call.skips later.subscriber = false →
        later ∈ invocations w'.trace := by
  have _ := hzone
  obtain ⟨w', h1, _, h3, _⟩ := FireCall.run_stable scripts call fuel w hsupp hst hfuel
  refine ⟨w', h1, h3, ?_⟩
  intro before after failing later hlive _ hlater hskip
  rw [h3, hlive]
  apply List.mem_append_right
  rw [List.mem_filter]
  exact ⟨by simp [hlater], by simp [hskip]⟩

/-- C4 amended, at a concrete input: the handler of 2 throws, and the level generator 3
behind it in the live list is still notified. -/
theorem EventManager.fireEvent_continues_after_failure_witness :
    ∃ w', (FireCall.deltaT EventType.TickEvent 16).run secondThrows 4 threeLiveWorld
        = Outcome.returned w' ∧
      ({ subscriber := 3, context := ScriptContext.LevelgenContext } : Subscription)
        ∈ invocations w'.trace :=
  have ⟨w', h1, _, h3⟩ := EventManager.fireEvent_continues_after_failure secondThrows
    (FireCall.deltaT EventType.TickEvent 16) 4 threeLiveWorld rfl (by decide)
    (fun s _ em => secondThrows_stable _ s em) (by decide)
  ⟨w', h1, h3 [{ subscriber := 1, context := ScriptContext.RobotContext }]
    [{ subscriber := 3, context := ScriptContext.LevelgenContext }]
    { subscriber := 2, context := ScriptContext.RobotContext }
    { subscriber := 3, context := ScriptContext.LevelgenContext }
    (by decide) (by intro em; simp [secondThrows]) (by simp) rfl⟩

/-- C6: for every overload without a sender (no payload, deltaT, core, ship, ship killed,
ship and zone, score), when the event kind is not suppressed and the handlers leave its
live list as it is, the call returns having run the handler of every live subscriber
exactly once, in live-list order, each under the context stored in its subscription: the
sequence of (subscriber, context) calls it adds to the trace is the live list itself, in
which (the state being reachable) no subscriber occurs twice. -/
theorem EventManager.fireEvent_notifies_in_order (scripts : Scripts) (call : FireCall)
    (fuel : Nat) (w : World) (hsender : call.sender? = none)
    (hsupp : w.em.suppressEvents call.eventType = false)
    (hst : ∀ s ∈ w.em.subscriptions call.eventType, ∀ em : EventManager,
      ((scripts s.subscriber call.eventType em).2).subscriptions call.eventType
        = em.subscriptions call.eventType)
    (hfuel : (w.em.subscriptions call.eventType).length < fuel) :
    ∃ w', call.run scripts fuel w = Outcome.returned w' ∧
      (Reachable w.em → (keys (w.em.subscriptions call.eventType)).Nodup) ∧
      invocations w'.trace = invocations w.trace ++ w.em.subscriptions call.eventType := by
  obtain ⟨w', h1, _, h3, _⟩ := FireCall.run_stable scripts call fuel w hsupp hst hfuel
  refine ⟨w', h1, fun hr => hr.wellFormed.live_nodup _, ?_⟩
  rw [h3]
  congr 1
  apply List.filter_eq_self.mpr
  intro s _
  simp [FireCall.skips_of_sender_none hsender]

/-- C6 at a concrete input: the score overload fired for Tick on the live list 1, 2, 3
(bots 1 and 2, level generator 3) runs exactly these three, in this order, under their
own contexts. -/
theorem EventManager.fireEvent_notifies_in_order_witness :
    ∃ w', (FireCall.score EventType.TickEvent 5 0 NULL).run secondReportsError 4 threeLiveWorld
        = Outcome.returned w' ∧
      invocations w'.trace =
        [{ subscriber := 1, context := ScriptContext.RobotContext },
         { subscriber := 2, context := ScriptContext.RobotContext },
         { subscriber := 3, context := ScriptContext.LevelgenContext }] :=
  have ⟨w', h1, _, h3⟩ := EventManager.fireEvent_notifies_in_order secondReportsError
    (FireCall.score EventType.TickEvent 5 0 NULL) 4 threeLiveWorld rfl (by decide)
    (fun s _ em => secondReportsError_stable _ s em) (by decide)
  ⟨w', h1, h3⟩

/-- C7, as stated, fails, because a handler can change the live list during the dispatch:
the live list of ChatMessage is 1, 2, 3, the sender is null, and the handler of 1 tears
itself down with `unsubscribeImmediate(1, ChatMessageEvent)`; the firing runs 1 and 2
only, not the whole live list. The same happens with the player overload. -/
theorem EventManager.fireEvent_skips_sender_counterexample :
    keys ((threeLiveFor EventType.ChatMessageEvent).subscriptions EventType.ChatMessageEvent)
      = [1, 2, 3] ∧
    (threeLiveFor EventType.ChatMessageEvent).suppressEvents EventType.ChatMessageEvent
      = false ∧
    ((fireEventMessage firstLeavesAtOnce 4
        { em := threeLiveFor EventType.ChatMessageEvent, trace := [] } NULL
        EventType.ChatMessageEvent "hello" NULL true).world?.map
      (fun w => keys (invocations w.trace))) = some [1, 2] ∧
    ((fireEventMessage firstLeavesAtOnce 4
        { em := threeLiveFor EventType.ChatMessageEvent, trace := [] } NULL
        EventType.ChatMessageEvent "hello" NULL true).world?.map
      (fun w => keys (invocations w.trace))) ≠
      some (keys (((threeLiveFor EventType.ChatMessageEvent).subscriptions
        EventType.ChatMessageEvent).filter (fun s => s.subscriber != NULL))) ∧
    ((fireEventPlayer firstLeavesAtOnce 4
        { em := threeLiveFor EventType.PlayerJoinedEvent, trace := [] } 9
        EventType.PlayerJoinedEvent 5).world?.map
      (fun w => keys (invocations w.trace))) = some [1, 2] :=
  ⟨by decide, by decide, by decide, by decide, by decide⟩

/-- C7, amended: for the chat-message and the player overloads, when the event kind is not
suppressed and the handlers leave its live list as it is, the handlers run are exactly
those of the live entries whose subscriber is not the sender, in live order. So the sender
is never run, every other live subscriber is, and with a null sender (the live list
holding no null pointer) every live subscriber is. -/
theorem EventManager.fireEvent_skips_sender (scripts : Scripts) (call : FireCall)
    (sender : LuaScriptRunner) (fuel : Nat) (w : World) (hsender : call.sender? = some sender)
    (hsupp : w.em.suppressEvents call.eventType = false)
    (hst : ∀ s ∈ w.em.subscriptions call.eventType, ∀ em : EventManager,
      ((scripts s.subscriber call.eventType em).2).subscriptions call.eventType
        = em.subscriptions call.eventType)
    (hfuel : (w.em.subscriptions call.eventType).length < fuel) :
    ∃ (w' : World) (invoked : List Subscription),
      call.run scripts fuel w = Outcome.returned w' ∧
      invocations w'.trace = invocations w.trace ++ invoked ∧
      invoked = (w.em.subscriptions call.eventType).filter (fun s => s.subscriber != sender) ∧
      sender ∉ keys invoked ∧
      (∀ s ∈ w.em.subscriptions call.eventType, s.subscriber ≠ sender → s ∈ invoked) ∧
      (sender = NULL → (∀ s ∈ w.em.subscriptions call.eventType, s.subscriber ≠ NULL) →
        invoked = w.em.subscriptions call.eventType) := by
  obtain ⟨w', h1, _, h3, _⟩ := FireCall.run_stable scripts call fuel w hsupp hst hfuel
  have hfilter : (w.em.subscriptions call.eventType).filter (fun s => !call.skips s.subscriber)
      = (w.em.subscriptions call.eventType).filter (fun s => s.subscriber != sender) := by
    apply List.filter_congr
    intro s _
    rw [FireCall.skips_of_sender_some hsender]
    cases h : (sender == s.subscriber) with
    | true =>
      have : sender = s.subscriber := by simpa using h
      simp [this]
    | false =>
      have : sender ≠ s.subscriber := by simpa using h
      simp [Ne.symm this]
  refine ⟨w', _, h1, by rw [h3, hfilter], rfl, ?_, ?_, ?_⟩
  · simp only [keys, List.mem_map, List.mem_filter]
    rintro ⟨s, ⟨_, hs⟩, hk⟩
    simp [hk] at hs
  · intro s hs hne
    rw [List.mem_filter]
    exact ⟨hs, by simpa using hne⟩
  · intro hnull hall
    apply List.filter_eq_self.mpr
    intro s hs
    have := hall s hs
    rw [hnull]
    simpa using this

/-- C7 amended, at a concrete input: a chat message sent by the live bot 2 on the live list
1, 2, 3 runs the handlers of 1 and 3 only. -/
theorem EventManager.fireEvent_skips_sender_witness :
    ∃ (w' : World) (invoked : List Subscription),
      (FireCall.message 2 EventType.TickEvent "hello" NULL true).run secondThrows 4
        threeLiveWorld = Outcome.returned w' ∧
      invocations w'.trace = invocations threeLiveWorld.trace ++ invoked ∧
      invoked = (threeLiveWorld.em.subscriptions EventType.TickEvent).filter
        (fun s => s.subscriber != 2) ∧
      (2 : LuaScriptRunner) ∉ keys invoked :=
  have ⟨w', invoked, h1, h2, h3, h4, _⟩ := EventManager.fireEvent_skips_sender secondThrows
    (FireCall.message 2 EventType.TickEvent "hello" NULL true) 2 4 threeLiveWorld rfl
    (by decide) (fun s _ em => secondThrows_stable _ s em) (by decide)
  ⟨w', invoked, h1, h2, h3, h4⟩

theorem subscribe_subscriptions (em : EventManager)
    (lf : LuaScriptRunner → EventType → Bool) (X : LuaScriptRunner) (K : EventType)
    (c : ScriptContext) (fs : Bool) :
    (em.subscribe lf X K c fs).subscriptions = em.subscriptions := by
  rcases subscribe_cases em lf X K c fs with h | ⟨_, _, _, h⟩ <;> rw [h]

theorem unsubscribe_subscriptions (em : EventManager) (X : LuaScriptRunner) (K : EventType) :
    (em.unsubscribe X K).subscriptions = em.subscriptions := by
  rcases unsubscribe_cases em X K with h | ⟨_, _, h⟩ <;> rw [h]

/-- C2: the live list of `E` is `[a, b, c]` in a reachable state, events are not
suppressed, `D` defines the handler of `E` and is neither live nor queued for `E`; the
handler of `a` calls `unsubscribe(b, E)` and `subscribe(D, E, ctx)`, the handlers of `b`
and `c` change nothing. Then one `fireEvent(E)` returns having run the handlers of `a`,
`b` and `c` in this order (so `b` is still notified) and not that of `D`; and after the
next `update`, `b` is no longer subscribed and `D` is. -/
theorem EventManager.fireEvent_mutation_during_dispatch (scripts : Scripts)
    (loadFunction : LuaScriptRunner → EventType → Bool) (E : EventType) (a b c : Subscription)
    (D : LuaScriptRunner) (ctx : ScriptContext) (failSilently : Bool) (fuel : Nat) (w : World)
    (hreach : Reachable w.em)
    (hlive : w.em.subscriptions E = [a, b, c])
    (hsupp : w.em.suppressEvents E = false)
    (hD : loadFunction D E = true)
    (hDlive : w.em.isSubscribed D E = false)
    (hDadd : w.em.isPendingSubscribed D E = false)
    (ha : ∀ em : EventManager, (scripts a.subscriber E em).2
      = (em.unsubscribe b.subscriber E).subscribe loadFunction D E ctx failSilently)
    (hb : ∀ em : EventManager, (scripts b.subscriber E em).2 = em)
    (hc : ∀ em : EventManager, (scripts c.subscriber E em).2 = em)
    (hfuel : 3 < fuel) :
    ∃ w', fireEvent scripts fuel w E = Outcome.returned w' ∧
      invocations w'.trace = invocations w.trace ++ [a, b, c] ∧
      D ∉ keys [a, b, c] ∧
      w'.em.update.isSubscribed b.subscriber E = false ∧
      w'.em.update.isSubscribed D E = true := by
  have hwf := hreach.wellFormed
  have hDnot : D ∉ keys [a, b, c] := by
    rw [← hlive, ← isSubscribed_iff, hDlive]; simp
  have hbD : b.subscriber ≠ D := by
    intro h; apply hDnot; simp [keys, h]
  -- the handlers leave the live list as it is
  have hst : ∀ s ∈ w.em.subscriptions E, ∀ em : EventManager,
      ((scripts s.subscriber E em).2).subscriptions E = em.subscriptions E := by
    intro s hs em
    rw [hlive] at hs
    simp only [List.mem_cons, List.mem_singleton, List.not_mem_nil, or_false] at hs
    rcases hs with rfl | rfl | rfl
    · rw [ha em, subscribe_subscriptions, unsubscribe_subscriptions]
    · rw [hb em]
    · rw [hc em]
  obtain ⟨w', h1, h2, h3, _⟩ := FireCall.run_stable scripts (FireCall.plain E) fuel w hsupp hst
    (by simp only [FireCall.eventType]; rw [hlive]; simpa using hfuel)
  simp only [FireCall.run, FireCall.eventType, FireCall.enter, FireCall.skips,
    FireCall.sender?, Bool.not_false, List.filter_true, hlive] at h1 h2 h3
  refine ⟨w', h1, h3, hDnot, ?_, ?_⟩
  all_goals
    have hem : w'.em = (w.em.unsubscribe b.subscriber E).subscribe loadFunction D E ctx
        failSilently := by
      rw [h2]
      simp only [afterHandlers, List.foldl_cons, List.foldl_nil]
      rw [hc, hb, ha]
    have hbin : b.subscriber ∈ keys (w.em.subscriptions E) := by rw [hlive]; simp [keys]
    have hr1 : Reachable (w.em.unsubscribe b.subscriber E) := Reachable.unsubscribe _ _ hreach
    have hr2 : Reachable w'.em := by rw [hem]; exact Reachable.subscribe _ _ _ _ _ hr1
    have hlive1 : (w.em.unsubscribe b.subscriber E).subscriptions = w.em.subscriptions :=
      unsubscribe_subscriptions _ _ _
    have hlive2 : w'.em.subscriptions = w.em.subscriptions := by
      rw [hem, subscribe_subscriptions, unsubscribe_subscriptions]
  · -- b is gone after the commit
    rw [← Bool.not_eq_true, isSubscribed_iff, mem_keys_update_iff hr2.wellFormed E]
    have hbrem1 : b.subscriber ∈ (w.em.unsubscribe b.subscriber E).pendingUnsubscriptions E := by
      rcases unsubscribe_cases w.em b.subscriber E with h | ⟨_, _, h⟩
      · rw [h]
        by_contra hnot
        have : (w.em.unsubscribe b.subscriber E) ≠ w.em := by
          intro heq
          have hflag := congrArg (fun e => e.pendingUnsubscriptions E) heq
          simp only [unsubscribe, (isSubscribed_iff _ _ _).mpr hbin, Bool.true_or,
            Bool.true_and] at hflag
          have hpu : w.em.isPendingUnsubscribed b.subscriber E = false := by
            rw [← Bool.not_eq_true, isPendingUnsubscribed_iff]; exact hnot
          simp [hpu, removeFromPendingSubscribeList, setAt_same] at hflag
        exact this h
      · rw [h]; simp [setAt_same]
    have hbrem2 : b.subscriber ∈ w'.em.pendingUnsubscriptions E := by
      rw [hem]
      rcases subscribe_cases (w.em.unsubscribe b.subscriber E) loadFunction D E ctx failSilently
        with h | ⟨_, _, _, h⟩
      · rw [h]; exact hbrem1
      · rw [h]
        simp only [setAt_same]
        exact (mem_runners_removeFirst_iff D _ (hr1.wellFormed.remove_nodup E) _).mpr
          ⟨hbrem1, hbD⟩
    rintro (h | h)
    · exact hr2.wellFormed.add_not_live E _ h (by rw [hlive2]; exact hbin)
    · exact h.2 hbrem2
  · -- D is live after the commit
    rw [isSubscribed_iff, mem_keys_update_iff hr2.wellFormed E]
    left
    have hD0 : (w.em.unsubscribe b.subscriber E).isSubscribed D E = false := by
      simp only [isSubscribed, hlive1]; exact hDlive
    have hD1 : (w.em.unsubscribe b.subscriber E).isPendingSubscribed D E = false := by
      rw [← Bool.not_eq_true, isPendingSubscribed_iff]
      have hDadd' : D ∉ keys (w.em.pendingSubscriptions E) := by
        rw [← isPendingSubscribed_iff, hDadd]; simp
      rcases unsubscribe_cases w.em b.subscriber E with h | ⟨_, _, h⟩
      · rw [h]; exact hDadd'
      · rw [h]
        simp only [setAt_same]
        exact fun hmem => hDadd' (mem_keys_of_mem_removeFirst hmem)
    rw [hem, (subscribe_taken _ loadFunction D E ctx failSilently hD0 hD1 hD).1]
    simp [keys]

/-- C2 at a concrete input: live Tick list 1, 2, 3; the handler of 1 unsubscribes 2 and
subscribes 4. The firing runs 1, 2, 3; after the commit 2 is gone and 4 is live. -/
theorem EventManager.fireEvent_mutation_during_dispatch_witness :
    ∃ w', fireEvent firstRewires 4 threeLiveWorld EventType.TickEvent = Outcome.returned w' ∧
      invocations w'.trace = invocations threeLiveWorld.trace ++
        [{ subscriber := 1, context := ScriptContext.RobotContext },
         { subscriber := 2, context := ScriptContext.RobotContext },
         { subscriber := 3, context := ScriptContext.LevelgenContext }] ∧
      w'.em.update.isSubscribed 2 EventType.TickEvent = false ∧
      w'.em.update.isSubscribed 4 EventType.TickEvent = true :=
  have ⟨w', h1, h2, _, h4, h5⟩ := EventManager.fireEvent_mutation_during_dispatch firstRewires
    everyHandler EventType.TickEvent { subscriber := 1, context := ScriptContext.RobotContext }
    { subscriber := 2, context := ScriptContext.RobotContext }
    { subscriber := 3, context := ScriptContext.LevelgenContext } 4 ScriptContext.RobotContext
    false 4 threeLiveWorld reachable_threeLive (by decide) (by decide) rfl (by decide)
    (by decide) (fun _ => rfl) (fun _ => rfl) (fun _ => rfl) (by decide)
  ⟨w', h1, h2, h4, h5⟩

theorem subscribe_of_subscribed (em : EventManager) (lf : LuaScriptRunner → EventType → Bool)
    (X : LuaScriptRunner) (K : EventType) (c : ScriptContext) (fs : Bool)
    (h : em.isSubscribed X K = true ∨ em.isPendingSubscribed X K = true) :
    em.subscribe lf X K c fs = em := by
  unfold subscribe
  rcases h with h | h <;> simp [h]

theorem not_mem_keys_of_false {em : EventManager} {X : LuaScriptRunner} {K : EventType}
    (h : em.isSubscribed X K = false) : X ∉ keys (em.subscriptions K) := by
  rw [← isSubscribed_iff, h]; simp

theorem not_mem_pending_of_false {em : EventManager} {X : LuaScriptRunner} {K : EventType}
    (h : em.isPendingSubscribed X K = false) : X ∉ keys (em.pendingSubscriptions K) := by
  rw [← isPendingSubscribed_iff, h]; simp

theorem not_mem_removals_of_false {em : EventManager} {X : LuaScriptRunner} {K : EventType}
    (h : em.isPendingUnsubscribed X K = false) : X ∉ em.pendingUnsubscriptions K := by
  rw [← isPendingUnsubscribed_iff, h]; simp

/-- C11, as stated, fails: in the reachable state with live Tick list 1, 2, 3 and
subscriber 1 queued for removal, the script of 1 defines the handler, and
`subscribe(1, TickEvent, RobotContext)` followed by `update()` leaves 1 not subscribed:
`subscribe` does nothing for a subscriber that is already live, and the commit removes
it. -/
theorem EventManager.subscribe_then_update_counterexample :
    Reachable firstLeaving ∧
    everyHandler 1 EventType.TickEvent = true ∧
    firstLeaving.isSubscribed 1 EventType.TickEvent = true ∧
    firstLeaving.isPendingUnsubscribed 1 EventType.TickEvent = true ∧
    firstLeaving.subscribe everyHandler 1 EventType.TickEvent ScriptContext.RobotContext false
      = firstLeaving ∧
    (firstLeaving.subscribe everyHandler 1 EventType.TickEvent ScriptContext.RobotContext
      false).update.isSubscribed 1 EventType.TickEvent = false :=
  ⟨reachable_firstLeaving, by decide, by decide, by decide, rfl, by decide⟩

/-- C11, amended: in a reachable state, for a subscriber `X` whose script defines the
handler of `K`, `subscribe(X, K, ctx, _)` followed by `update()` leaves `X` subscribed
unless `X` was live and already queued for removal before the call; in that case
`subscribe`, a no-op for a subscriber that is already live, does not cancel the removal,
and the commit removes `X`. -/
theorem EventManager.subscribe_then_update (em : EventManager) (h : Reachable em)
    (loadFunction : LuaScriptRunner → EventType → Bool) (X : LuaScriptRunner) (K : EventType)
    (c : ScriptContext) (failSilently : Bool) (hlf : loadFunction X K = true) :
    ((em.subscribe loadFunction X K c failSilently).update.isSubscribed X K = true ↔
      ¬ (em.isSubscribed X K = true ∧ em.isPendingUnsubscribed X K = true)) := by
  have hwf := h.wellFormed
  by_cases hlive : em.isSubscribed X K = true
  · rw [subscribe_of_subscribed em loadFunction X K c failSilently (Or.inl hlive),
      isSubscribed_iff, mem_keys_update_iff hwf K X, isPendingUnsubscribed_iff]
    have hl := (isSubscribed_iff em X K).mp hlive
    constructor
    · rintro (h1 | h1)
      · exact absurd hl (hwf.add_not_live K X h1)
      · exact fun h2 => h1.2 h2.2
    · intro h1
      exact Or.inr ⟨hl, fun h2 => h1 ⟨hlive, h2⟩⟩
  · have hlive' : em.isSubscribed X K = false := by simpa using hlive
    have hrhs : ¬ (em.isSubscribed X K = true ∧ em.isPendingUnsubscribed X K = true) :=
      fun h1 => hlive h1.1
    simp only [hrhs, not_false_eq_true, iff_true]
    by_cases hpend : em.isPendingSubscribed X K = true
    · rw [subscribe_of_subscribed em loadFunction X K c failSilently (Or.inr hpend),
        isSubscribed_iff, mem_keys_update_iff hwf K X]
      exact Or.inl ((isPendingSubscribed_iff em X K).mp hpend)
    · have hpend' : em.isPendingSubscribed X K = false := by simpa using hpend
      have hr : Reachable (em.subscribe loadFunction X K c failSilently) :=
        Reachable.subscribe _ _ _ _ _ h
      rw [isSubscribed_iff, mem_keys_update_iff hr.wellFormed K X,
        (subscribe_taken em loadFunction X K c failSilently hlive' hpend' hlf).1]
      left
      simp [keys]

/-- C11 amended, at a concrete input: in the reachable state with live Tick list 1, 2, 3
and subscriber 1 queued for removal, subscriber 2 (live, not queued for removal) and
subscriber 4 (not yet known) are subscribed after `subscribe` and `update()`. -/
theorem EventManager.subscribe_then_update_witness :
    (firstLeaving.subscribe everyHandler 2 EventType.TickEvent ScriptContext.RobotContext
      false).update.isSubscribed 2 EventType.TickEvent = true ∧
    (firstLeaving.subscribe everyHandler 4 EventType.TickEvent ScriptContext.RobotContext
      false).update.isSubscribed 4 EventType.TickEvent = true :=
  ⟨(EventManager.subscribe_then_update firstLeaving reachable_firstLeaving everyHandler 2
      EventType.TickEvent ScriptContext.RobotContext false rfl).mpr (by decide),
    (EventManager.subscribe_then_update firstLeaving reachable_firstLeaving everyHandler 4
      EventType.TickEvent ScriptContext.RobotContext false rfl).mpr (by decide)⟩

/-- C12: when `X` is neither live nor queued for subscription to `K` and its script
defines the handler, after `subscribe(X, K, ctx, _)` `X` is not subscribed but pending:
it is the last entry of the pending-subscribe list of `K`, with context `ctx`, and
`anyPending` is set; after the following `update()` it is subscribed and no longer
pending. -/
theorem EventManager.subscribe_deferred_visibility (em : EventManager)
    (loadFunction : LuaScriptRunner → EventType → Bool) (X : LuaScriptRunner) (K : EventType)
    (ctx : ScriptContext) (failSilently : Bool)
    (h0 : em.isSubscribed X K = false) (h1 : em.isPendingSubscribed X K = false)
    (hlf : loadFunction X K = true) :
    (em.subscribe loadFunction X K ctx failSilently).isSubscribed X K = false ∧
    (em.subscribe loadFunction X K ctx failSilently).isPendingSubscribed X K = true ∧
    ((em.subscribe loadFunction X K ctx failSilently).pendingSubscriptions K).getLast?
      = some { subscriber := X, context := ctx } ∧
    (em.subscribe loadFunction X K ctx failSilently).anyPending = true ∧
    (em.subscribe loadFunction X K ctx failSilently).update.isSubscribed X K = true ∧
    (em.subscribe loadFunction X K ctx failSilently).update.isPendingSubscribed X K = false := by
  obtain ⟨hp, hs, hf⟩ := subscribe_taken em loadFunction X K ctx failSilently h0 h1 hlf
  refine ⟨?_, ?_, ?_, hf, ?_, ?_⟩
  · simp only [isSubscribed, hs]; exact h0
  · rw [isPendingSubscribed_iff, hp]; simp [keys]
  · rw [hp]; simp
  · rw [isSubscribed_iff]
    simp only [update, hf, if_true, hp, keys_append]
    simp [keys]
  · simp [update, hf, isPendingSubscribed]

/-- C12 at a concrete input: subscriber 4 subscribing to Tick on the state with live
list 1, 2, 3. -/
theorem EventManager.subscribe_deferred_visibility_witness :
    (threeLive.subscribe everyHandler 4 EventType.TickEvent ScriptContext.LevelgenContext
      false).isSubscribed 4 EventType.TickEvent = false ∧
    (threeLive.subscribe everyHandler 4 EventType.TickEvent ScriptContext.LevelgenContext
      false).isPendingSubscribed 4 EventType.TickEvent = true ∧
    (threeLive.subscribe everyHandler 4 EventType.TickEvent ScriptContext.LevelgenContext
      false).update.isSubscribed 4 EventType.TickEvent = true :=
  have h := EventManager.subscribe_deferred_visibility threeLive everyHandler 4
    EventType.TickEvent ScriptContext.LevelgenContext false (by decide) (by decide) rfl
  ⟨h.1, h.2.1, h.2.2.2.2.1⟩

theorem removeFirst_snoc_of_absent (X : LuaScriptRunner) (l : List Subscription)
    (c : ScriptContext) (h : X ∉ keys l) :
    removeFirst (fun s => s.subscriber == X) (l ++ [{ subscriber := X, context := c }]) = l := by
  have h1 := removeFirst_append_cons (p := fun s : Subscription => s.subscriber == X) l
    { subscriber := X, context := c } []
    (by
      intro s hs
      cases hsx : (s.subscriber == X) with
      | false => exact hsx
      | true =>
        exfalso
        apply h
        have : s.subscriber = X := by simpa using hsx
        rw [← this]
        exact List.mem_map_of_mem _ hs)
    (by simp)
  rw [h1, lastToFront_nil, List.append_nil]

theorem unsubscribe_taken (em : EventManager) (X : LuaScriptRunner) (K : EventType)
    (h1 : em.isSubscribed X K = true ∨ em.isPendingSubscribed X K = true)
    (h2 : em.isPendingUnsubscribed X K = false) :
    em.unsubscribe X K =
      { em with
        pendingSubscriptions := setAt em.pendingSubscriptions K
          (removeFirst (fun s => s.subscriber == X) (em.pendingSubscriptions K))
        pendingUnsubscriptions := setAt em.pendingUnsubscriptions K
          (em.pendingUnsubscriptions K ++ [X])
        anyPending := true } := by
  unfold unsubscribe
  rcases h1 with h1 | h1 <;> simp [h1, h2, removeFromPendingSubscribeList]

theorem unsubscribe_not_taken (em : EventManager) (X : LuaScriptRunner) (K : EventType)
    (h : ¬ ((em.isSubscribed X K = true ∨ em.isPendingSubscribed X K = true) ∧
      em.isPendingUnsubscribed X K = false)) :
    em.unsubscribe X K = em := by
  unfold unsubscribe
  have hc : ((em.isSubscribed X K || em.isPendingSubscribed X K)
      && !em.isPendingUnsubscribed X K) = false := by
    rw [← Bool.not_eq_true]
    intro hh
    apply h
    simpa using hh
  simp [hc]

/-- C13: when `X` is in none of the three lists of `K` and its script defines the handler,
after `subscribe(X, K, ctx, _)`, then `unsubscribe(X, K)`, then `update()`, `X` is neither
subscribed nor pending in either staging list, and `X` was not subscribed at either
intermediate state. -/
theorem EventManager.subscribe_unsubscribe_same_tick (em : EventManager)
    (loadFunction : LuaScriptRunner → EventType → Bool) (X : LuaScriptRunner) (K : EventType)
    (ctx : ScriptContext) (failSilently : Bool)
    (h0 : em.isSubscribed X K = false) (h1 : em.isPendingSubscribed X K = false)
    (h2 : em.isPendingUnsubscribed X K = false) (hlf : loadFunction X K = true) :
    (em.subscribe loadFunction X K ctx failSilently).isSubscribed X K = false ∧
    ((em.subscribe loadFunction X K ctx failSilently).unsubscribe X K).isSubscribed X K = false ∧
    ((em.subscribe loadFunction X K ctx failSilently).unsubscribe X K).update.isSubscribed X K
      = false ∧
    ((em.subscribe loadFunction X K ctx failSilently).unsubscribe X K).update.isPendingSubscribed
      X K = false ∧
    ((em.subscribe loadFunction X K ctx failSilently).unsubscribe X K).update.isPendingUnsubscribed
      X K = false := by
  obtain ⟨hp, hs, _⟩ := subscribe_taken em loadFunction X K ctx failSilently h0 h1 hlf
  have hin : (em.subscribe loadFunction X K ctx failSilently).isPendingSubscribed X K = true := by
    rw [isPendingSubscribed_iff, hp]; simp [keys]
  have hrem : (em.subscribe loadFunction X K ctx failSilently).isPendingUnsubscribed X K
      = false := by
    rw [← Bool.not_eq_true, isPendingUnsubscribed_iff]
    rcases subscribe_cases em loadFunction X K ctx failSilently with h | ⟨_, _, _, h⟩
    · rw [h]; exact not_mem_removals_of_false h2
    · rw [h]
      simp only [setAt_same]
      exact fun hmem => not_mem_removals_of_false h2 (mem_of_mem_removeFirst hmem)
  have hu := unsubscribe_taken _ X K (Or.inr hin) hrem
  have hlive : ((em.subscribe loadFunction X K ctx failSilently).unsubscribe X K).subscriptions
      = em.subscriptions := by
    rw [unsubscribe_subscriptions, hs]
  have hadd : ((em.subscribe loadFunction X K ctx failSilently).unsubscribe X K).pendingSubscriptions
      K = em.pendingSubscriptions K := by
    rw [hu]
    simp only [setAt_same, hp]
    exact removeFirst_snoc_of_absent X _ ctx (not_mem_pending_of_false h1)
  have hflag : ((em.subscribe loadFunction X K ctx failSilently).unsubscribe X K).anyPending
      = true := by
    rw [hu]
  refine ⟨?_, ?_, ?_, ?_, ?_⟩
  · simp only [isSubscribed, hs]; exact h0
  · simp only [isSubscribed, hlive]; exact h0
  · rw [← Bool.not_eq_true, isSubscribed_iff]
    simp only [update, hflag, if_true, hlive, hadd, keys_append, List.mem_append, not_or]
    refine ⟨?_, not_mem_pending_of_false h1⟩
    intro hmem
    have hsub : ∀ (pending : List LuaScriptRunner) (live : List Subscription),
        X ∈ keys (applyUnsubscriptions live pending) → X ∈ keys live := by
      intro pending
      induction pending with
      | nil => intro live h; exact h
      | cons y rest ih =>
        intro live h
        simp only [applyUnsubscriptions, List.foldl_cons] at h
        exact mem_keys_of_mem_removeFirst (ih _ h)
    exact not_mem_keys_of_false h0 (hsub _ _ hmem)
  · simp [update, hflag, isPendingSubscribed]
  · simp [update, hflag, isPendingUnsubscribed]

/-- C13 at a concrete input: subscriber 4 subscribes to Tick and unsubscribes again before
the commit, on the state with live list 1, 2, 3. -/
theorem EventManager.subscribe_unsubscribe_same_tick_witness :
    ((threeLive.subscribe everyHandler 4 EventType.TickEvent ScriptContext.RobotContext
      false).unsubscribe 4 EventType.TickEvent).update.isSubscribed 4 EventType.TickEvent
      = false :=
  (EventManager.subscribe_unsubscribe_same_tick threeLive everyHandler 4 EventType.TickEvent
    ScriptContext.RobotContext false (by decide) (by decide) (by decide) rfl).2.2.1

/-- C15: when the script of `X` does not define the handler of `K`, `subscribe` leaves the
whole state unchanged, with or without `failSilently`; so a subscriber that was neither
subscribed nor pending is neither subscribed nor pending right after the call and after
the next `update()`. -/
theorem EventManager.subscribe_missing_handler (em : EventManager)
    (loadFunction : LuaScriptRunner → EventType → Bool) (X : LuaScriptRunner) (K : EventType)
    (ctx : ScriptContext) (failSilently : Bool) (hlf : loadFunction X K = false) :
    em.subscribe loadFunction X K ctx failSilently = em ∧
    (em.isSubscribed X K = false → em.isPendingSubscribed X K = false →
      (em.subscribe loadFunction X K ctx failSilently).isSubscribed X K = false ∧
      (em.subscribe loadFunction X K ctx failSilently).isPendingSubscribed X K = false ∧
      (em.subscribe loadFunction X K ctx failSilently).update.isSubscribed X K = false ∧
      (em.subscribe loadFunction X K ctx failSilently).update.isPendingSubscribed X K
        = false) := by
  have hsame : em.subscribe loadFunction X K ctx failSilently = em := by
    unfold subscribe
    by_cases h : (em.isSubscribed X K || em.isPendingSubscribed X K) = true
    · simp [h]
    · simp [h, hlf]
  refine ⟨hsame, ?_⟩
  intro h0 h1
  rw [hsame]
  refine ⟨h0, h1, ?_, ?_⟩
  · rw [← Bool.not_eq_true, isSubscribed_iff]
    unfold update
    by_cases hp : em.anyPending = true
    · simp only [hp, if_true, keys_append, List.mem_append, not_or]
      refine ⟨?_, not_mem_pending_of_false h1⟩
      intro hmem
      have hsub : ∀ (pending : List LuaScriptRunner) (live : List Subscription),
          X ∈ keys (applyUnsubscriptions live pending) → X ∈ keys live := by
        intro pending
        induction pending with
        | nil => intro live h; exact h
        | cons y rest ih =>
          intro live h
          simp only [applyUnsubscriptions, List.foldl_cons] at h
          exact mem_keys_of_mem_removeFirst (ih _ h)
      exact not_mem_keys_of_false h0 (hsub _ _ hmem)
    · simp only [hp, if_false]
      exact not_mem_keys_of_false h0
  · unfold update
    by_cases hp : em.anyPending = true
    · simp [hp, isPendingSubscribed]
    · simp only [hp, if_false]; exact h1

/-- C15 at a concrete input: subscriber 4, whose script has no handler, asks to subscribe
to Tick on the state with live list 1, 2, 3. -/
theorem EventManager.subscribe_missing_handler_witness :
    threeLive.subscribe (fun _ _ => false) 4 EventType.TickEvent ScriptContext.RobotContext
      false = threeLive ∧
    (threeLive.subscribe (fun _ _ => false) 4 EventType.TickEvent ScriptContext.RobotContext
      false).update.isSubscribed 4 EventType.TickEvent = false :=
  have h := EventManager.subscribe_missing_handler threeLive (fun _ _ => false) 4
    EventType.TickEvent ScriptContext.RobotContext false rfl
  ⟨h.1, (h.2 (by decide) (by decide)).2.2.1⟩

/-- C16: `unsubscribe(X, K)`. If `X` is live or queued for subscription to `K` and not
already queued for removal, then afterwards `X` is the last element of the
pending-unsubscribe list of `K`, `anyPending` is set and (the state being reachable) `X`
is no longer queued for subscription. In every other case the state is unchanged. A
second `unsubscribe(X, K)` right after the first changes nothing. -/
theorem EventManager.unsubscribe_postcondition (em : EventManager) (X : LuaScriptRunner)
    (K : EventType) :
    (((em.isSubscribed X K = true ∨ em.isPendingSubscribed X K = true) ∧
        em.isPendingUnsubscribed X K = false) →
      ((em.unsubscribe X K).pendingUnsubscriptions K).getLast? = some X ∧
      (em.unsubscribe X K).anyPending = true ∧
      (Reachable em → (em.unsubscribe X K).isPendingSubscribed X K = false)) ∧
    (¬ ((em.isSubscribed X K = true ∨ em.isPendingSubscribed X K = true) ∧
        em.isPendingUnsubscribed X K = false) →
      em.unsubscribe X K = em) ∧
    (em.unsubscribe X K).unsubscribe X K = em.unsubscribe X K := by
  refine ⟨?_, unsubscribe_not_taken em X K, ?_⟩
  · rintro ⟨h1, h2⟩
    have hu := unsubscribe_taken em X K h1 h2
    refine ⟨?_, ?_, ?_⟩
    · rw [hu]; simp [setAt_same]
    · rw [hu]
    · intro hreach
      rw [← Bool.not_eq_true, isPendingSubscribed_iff, hu]
      simp only [setAt_same]
      rw [mem_keys_removeFirst_iff X _ (hreach.wellFormed.add_nodup K) X]
      exact fun h => h.2 rfl
  · by_cases h : (em.isSubscribed X K = true ∨ em.isPendingSubscribed X K = true) ∧
        em.isPendingUnsubscribed X K = false
    · apply unsubscribe_not_taken
      rintro ⟨_, h3⟩
      have hin : X ∈ (em.unsubscribe X K).pendingUnsubscriptions K := by
        rw [unsubscribe_taken em X K h.1 h.2]
        simp [setAt_same]
      rw [← Bool.not_eq_true, isPendingUnsubscribed_iff] at h3
      exact h3 hin
    · rw [unsubscribe_not_taken em X K h]
      exact unsubscribe_not_taken em X K h

/-- C16 at a concrete input: subscriber 1 unsubscribes from Tick on the state with live
list 1, 2, 3. -/
theorem EventManager.unsubscribe_postcondition_witness :
    ((threeLive.unsubscribe 1 EventType.TickEvent).pendingUnsubscriptions
      EventType.TickEvent).getLast? = some 1 ∧
    (threeLive.unsubscribe 1 EventType.TickEvent).anyPending = true ∧
    (threeLive.unsubscribe 1 EventType.TickEvent).isPendingSubscribed 1 EventType.TickEvent
      = false :=
  have h := (EventManager.unsubscribe_postcondition threeLive 1 EventType.TickEvent).1
    ⟨Or.inl (by decide), by decide⟩
  ⟨h.1, h.2.1, h.2.2 reachable_threeLive⟩

theorem unsubscribeImmediate_fields (em : EventManager) (X : LuaScriptRunner) (K : EventType) :
    (em.unsubscribeImmediate X K).subscriptions
      = setAt em.subscriptions K
          (removeFirst (fun s => s.subscriber == X) (em.subscriptions K)) ∧
    (em.unsubscribeImmediate X K).pendingSubscriptions
      = setAt em.pendingSubscriptions K
          (removeFirst (fun s => s.subscriber == X) (em.pendingSubscriptions K)) ∧
    (em.unsubscribeImmediate X K).pendingUnsubscriptions
      = setAt em.pendingUnsubscriptions K
          (removeFirst (fun s => s == X) (em.pendingUnsubscriptions K)) ∧
    (em.unsubscribeImmediate X K).anyPending = em.anyPending ∧
    (em.unsubscribeImmediate X K).mIsPaused = em.mIsPaused ∧
    (em.unsubscribeImmediate X K).mStepCount = em.mStepCount :=
  ⟨rfl, rfl, rfl, rfl, rfl, rfl⟩

/-- C17: in a reachable state, after `unsubscribeImmediate(X, K)` the subscriber `X` is
neither subscribed to `K` nor in either staging list of `K`; every entry of another
subscriber is in each of the three lists of `K` exactly when it was before (with its
context); and the lists of every other kind, `anyPending` and the pause state are
unchanged. -/
theorem EventManager.unsubscribeImmediate_postcondition (em : EventManager)
    (h : Reachable em) (X : LuaScriptRunner) (K : EventType) :
    (em.unsubscribeImmediate X K).isSubscribed X K = false ∧
    (em.unsubscribeImmediate X K).isPendingSubscribed X K = false ∧
    (em.unsubscribeImmediate X K).isPendingUnsubscribed X K = false ∧
    (∀ s : Subscription, s.subscriber ≠ X →
      (s ∈ (em.unsubscribeImmediate X K).subscriptions K ↔ s ∈ em.subscriptions K) ∧
      (s ∈ (em.unsubscribeImmediate X K).pendingSubscriptions K
        ↔ s ∈ em.pendingSubscriptions K)) ∧
    (∀ Y : LuaScriptRunner, Y ≠ X →
      (Y ∈ (em.unsubscribeImmediate X K).pendingUnsubscriptions K
        ↔ Y ∈ em.pendingUnsubscriptions K)) ∧
    (∀ K', K' ≠ K →
      (em.unsubscribeImmediate X K).subscriptions K' = em.subscriptions K' ∧
      (em.unsubscribeImmediate X K).pendingSubscriptions K' = em.pendingSubscriptions K' ∧
      (em.unsubscribeImmediate X K).pendingUnsubscriptions K'
        = em.pendingUnsubscriptions K') ∧
    (em.unsubscribeImmediate X K).anyPending = em.anyPending ∧
    (em.unsubscribeImmediate X K).mIsPaused = em.mIsPaused ∧
    (em.unsubscribeImmediate X K).mStepCount = em.mStepCount := by
  have hwf := h.wellFormed
  obtain ⟨f1, f2, f3, f4, f5, f6⟩ := unsubscribeImmediate_fields em X K
  refine ⟨?_, ?_, ?_, ?_, ?_, ?_, f4, f5, f6⟩
  · rw [← Bool.not_eq_true, isSubscribed_iff, f1, setAt_same,
      mem_keys_removeFirst_iff X _ (hwf.live_nodup K) X]
    exact fun h => h.2 rfl
  · rw [← Bool.not_eq_true, isPendingSubscribed_iff, f2, setAt_same,
      mem_keys_removeFirst_iff X _ (hwf.add_nodup K) X]
    exact fun h => h.2 rfl
  · rw [← Bool.not_eq_true, isPendingUnsubscribed_iff, f3, setAt_same,
      mem_runners_removeFirst_iff X _ (hwf.remove_nodup K) X]
    exact fun h => h.2 rfl
  · intro s hs
    rw [f1, f2, setAt_same, setAt_same,
      mem_removeFirst_iff Subscription.subscriber X _ (subscriberPred X) _ (hwf.live_nodup K) s,
      mem_removeFirst_iff Subscription.subscriber X _ (subscriberPred X) _ (hwf.add_nodup K) s]
    exact ⟨⟨fun h => h.1, fun h => ⟨h, hs⟩⟩, ⟨fun h => h.1, fun h => ⟨h, hs⟩⟩⟩
  · intro Y hY
    rw [f3, setAt_same, mem_runners_removeFirst_iff X _ (hwf.remove_nodup K) Y]
    exact ⟨fun h => h.1, fun h => ⟨h, hY⟩⟩
  · intro K' hK
    rw [f1, f2, f3, setAt_other _ _ _ hK, setAt_other _ _ _ hK, setAt_other _ _ _ hK]
    exact ⟨rfl, rfl, rfl⟩

/-- C17 at a concrete input: subscriber 1, live for Tick and queued for removal, is
removed at once; subscriber 2 stays live. -/
theorem EventManager.unsubscribeImmediate_postcondition_witness :
    (firstLeaving.unsubscribeImmediate 1 EventType.TickEvent).isSubscribed 1 EventType.TickEvent
      = false ∧
    (firstLeaving.unsubscribeImmediate 1 EventType.TickEvent).isPendingUnsubscribed 1
      EventType.TickEvent = false ∧
    (({ subscriber := 2, context := ScriptContext.RobotContext } : Subscription)
      ∈ (firstLeaving.unsubscribeImmediate 1 EventType.TickEvent).subscriptions
        EventType.TickEvent) :=
  have h := EventManager.unsubscribeImmediate_postcondition firstLeaving reachable_firstLeaving
    1 EventType.TickEvent
  ⟨h.1, h.2.2.1,
    ((h.2.2.2.1 { subscriber := 2, context := ScriptContext.RobotContext } (by decide)).1).mpr
      (by decide)⟩

/-- C18: in every state reachable from the initial one by `subscribe`, `unsubscribe`,
`unsubscribeImmediate` and `update` (and the pause operations), whatever the
handler-presence answers, each subscriber appears at most once in the live list of each
event kind. -/
theorem EventManager.live_list_unique (em : EventManager) (h : Reachable em) (K : EventType)
    (X : LuaScriptRunner) :
    (keys (em.subscriptions K)).count X ≤ 1 ∧ (keys (em.subscriptions K)).Nodup :=
  ⟨List.nodup_iff_count_le_one.mp (h.wellFormed.live_nodup K) X, h.wellFormed.live_nodup K⟩

/-- C18 at a concrete input: after subscriber 4 has subscribed twice to Tick and the
commit has run on the state with live list 1, 2, 3, subscriber 4 is live at most once. -/
theorem EventManager.live_list_unique_witness :
    (keys (((threeLive.subscribe everyHandler 4 EventType.TickEvent ScriptContext.RobotContext
      false).subscribe everyHandler 4 EventType.TickEvent ScriptContext.RobotContext
      false).update.subscriptions EventType.TickEvent)).count 4 ≤ 1 :=
  (EventManager.live_list_unique _
    (Reachable.update (Reachable.subscribe _ _ _ _ _ (Reachable.subscribe _ _ _ _ _
      reachable_threeLive))) EventType.TickEvent 4).1

/-- C19: in a reachable state, after `update()` both staging lists of every event kind are
empty and `anyPending` is false, so nobody is pending in either list; when `anyPending`
is false before the call, `update()` leaves the state unchanged; and `anyPending` is true
whenever a staging list is not empty. -/
theorem EventManager.update_clears_staging (em : EventManager) (h : Reachable em) :
    (∀ K, em.update.pendingSubscriptions K = [] ∧ em.update.pendingUnsubscriptions K = []) ∧
    em.update.anyPending = false ∧
    (∀ X K, em.update.isPendingSubscribed X K = false ∧
      em.update.isPendingUnsubscribed X K = false) ∧
    (em.anyPending = false → em.update = em) ∧
    (∀ K, (em.pendingSubscriptions K ≠ [] ∨ em.pendingUnsubscriptions K ≠ []) →
      em.anyPending = true) := by
  have hwf := h.wellFormed
  have hlists : ∀ K, em.update.pendingSubscriptions K = [] ∧
      em.update.pendingUnsubscriptions K = [] := by
    intro K
    unfold update
    by_cases hp : em.anyPending = true
    · simp [hp]
    · simp only [hp, if_false]
      exact hwf.flag K (by simpa using hp)
  refine ⟨hlists, ?_, ?_, ?_, ?_⟩
  · unfold update
    by_cases hp : em.anyPending = true
    · simp [hp]
    · simp [hp]
  · intro X K
    simp [isPendingSubscribed, isPendingUnsubscribed, (hlists K).1, (hlists K).2]
  · intro hp
    simp [update, hp]
  · intro K hne
    cases hp : em.anyPending with
    | true => rfl
    | false =>
      obtain ⟨h1, h2⟩ := hwf.flag K hp
      rcases hne with hne | hne
      · exact absurd h1 hne
      · exact absurd h2 hne

/-- C19 at a concrete input: the state with live Tick list 1, 2, 3 and subscriber 1 queued
for removal; after the commit nothing is queued. -/
theorem EventManager.update_clears_staging_witness :
    firstLeaving.update.pendingUnsubscriptions EventType.TickEvent = [] ∧
    firstLeaving.update.anyPending = false :=
  have h := EventManager.update_clears_staging firstLeaving reachable_firstLeaving
  ⟨(h.1 EventType.TickEvent).2, h.2.1⟩

/-- C20: `suppressEvents(K)` is true exactly when the live list of `K` is empty, or the
manager is paused and `mStepCount <= 0`; the rule is the same for every event kind, Tick
included; and while not paused the answer does not depend on `mStepCount`. -/
theorem EventManager.suppressEvents_rule (em : EventManager) (K : EventType) :
    (em.suppressEvents K = true ↔
      (em.subscriptions K = [] ∨ (em.mIsPaused = true ∧ em.mStepCount ≤ 0))) ∧
    (em.suppressEvents EventType.TickEvent = true ↔
      (em.subscriptions EventType.TickEvent = [] ∨
        (em.mIsPaused = true ∧ em.mStepCount ≤ 0))) ∧
    (em.mIsPaused = false → ∀ n : Int,
      ({ em with mStepCount := n } : EventManager).suppressEvents K = em.suppressEvents K) := by
  have hrule : ∀ K' : EventType, (em.suppressEvents K' = true ↔
      (em.subscriptions K' = [] ∨ (em.mIsPaused = true ∧ em.mStepCount ≤ 0))) := by
    intro K'
    unfold suppressEvents
    by_cases hlen : em.subscriptions K' = []
    · simp [hlen]
    · have hl : ((em.subscriptions K').length == 0) = false := by
        simpa using hlen
      simp [hl, hlen]
  refine ⟨hrule K, hrule EventType.TickEvent, ?_⟩
  intro hp n
  simp [suppressEvents, hp]

/-- C20 at a concrete input: the unpaused state with live Tick list 1, 2, 3 does not
suppress Tick, whatever the step count. -/
theorem EventManager.suppressEvents_rule_witness :
    ({ threeLive with mStepCount := 5 } : EventManager).suppressEvents EventType.TickEvent
      = threeLive.suppressEvents EventType.TickEvent :=
  (EventManager.suppressEvents_rule threeLive EventType.TickEvent).2.2 (by decide) 5

/-- C21: when the live list of the fired kind is empty, every `fireEvent` overload returns
at once, whatever the pause flag, the step count and the iteration bound: the world is
the one it was given, so nothing was pushed, no handler was run and the state, the step
count of a Tick included, is unchanged. -/
theorem EventManager.fireEvent_no_subscribers (scripts : Scripts) (call : FireCall)
    (fuel : Nat) (w : World) (hempty : w.em.subscriptions call.eventType = []) :
    call.run scripts fuel w = Outcome.returned w := by
  rw [FireCall.run_eq]
  simp [suppressEvents, hempty]

/-- C21 at a concrete input: a Tick fired through the deltaT overload on the initial,
empty table, while paused with three steps granted. -/
theorem EventManager.fireEvent_no_subscribers_witness :
    (FireCall.deltaT EventType.TickEvent 16).run secondThrows 0
      { em := (EventManager.initial.setPaused true).addSteps 3, trace := [] }
      = Outcome.returned { em := (EventManager.initial.setPaused true).addSteps 3, trace := [] } :=
  EventManager.fireEvent_no_subscribers secondThrows (FireCall.deltaT EventType.TickEvent 16) 0
    { em := (EventManager.initial.setPaused true).addSteps 3, trace := [] } rfl

/-- C24: `addSteps(n)` changes nothing while not paused, so a Tick fired afterwards goes
exactly as it would have without the call; while paused it sets `mStepCount` to `n` and
leaves the pause flag and the tables as they are. -/
theorem EventManager.addSteps_effect (em : EventManager) (n : Int) :
    (em.mIsPaused = false → em.addSteps n = em) ∧
    (em.mIsPaused = false → ∀ (scripts : Scripts) (fuel : Nat) (trace : List Effect)
      (deltaT : Nat),
      fireEventDeltaT scripts fuel { em := em.addSteps n, trace := trace } EventType.TickEvent
          deltaT
        = fireEventDeltaT scripts fuel { em := em, trace := trace } EventType.TickEvent deltaT) ∧
    (em.mIsPaused = true →
      (em.addSteps n).mStepCount = n ∧
      (em.addSteps n).mIsPaused = true ∧
      (em.addSteps n).subscriptions = em.subscriptions ∧
      (em.addSteps n).pendingSubscriptions = em.pendingSubscriptions ∧
      (em.addSteps n).pendingUnsubscriptions = em.pendingUnsubscriptions ∧
      (em.addSteps n).anyPending = em.anyPending) := by
  have hsame : em.mIsPaused = false → em.addSteps n = em := by
    intro h; simp [addSteps, h]
  refine ⟨hsame, ?_, ?_⟩
  · intro h scripts fuel trace deltaT
    rw [hsame h]
  · intro h
    simp [addSteps, h]

/-- C24 at a concrete input: `addSteps(5)` on the unpaused state with live Tick list
1, 2, 3 changes nothing; on the same state paused it sets the step count to 5. -/
theorem EventManager.addSteps_effect_witness :
    threeLive.addSteps 5 = threeLive ∧
    ((threeLive.setPaused true).addSteps 5).mStepCount = 5 :=
  ⟨(EventManager.addSteps_effect threeLive 5).1 (by decide),
    ((EventManager.addSteps_effect (threeLive.setPaused true) 5).2.2 (by decide)).1⟩

/-- C28: in every reachable state and for every event kind, no subscriber occurs twice in
the pending-subscribe list or in the pending-unsubscribe list, no subscriber is both
queued for subscription and live, and none is in both staging lists. -/
theorem EventManager.staging_invariants (em : EventManager) (h : Reachable em) (K : EventType) :
    (keys (em.pendingSubscriptions K)).Nodup ∧
    (em.pendingUnsubscriptions K).Nodup ∧
    (∀ X, ¬ (em.isPendingSubscribed X K = true ∧ em.isSubscribed X K = true)) ∧
    (∀ X, ¬ (em.isPendingSubscribed X K = true ∧ em.isPendingUnsubscribed X K = true)) := by
  have hwf := h.wellFormed
  refine ⟨hwf.add_nodup K, hwf.remove_nodup K, ?_, ?_⟩
  · rintro X ⟨h1, h2⟩
    rw [isPendingSubscribed_iff] at h1
    rw [isSubscribed_iff] at h2
    exact hwf.add_not_live K X h1 h2
  · rintro X ⟨h1, h2⟩
    rw [isPendingSubscribed_iff] at h1
    rw [isPendingUnsubscribed_iff] at h2
    exact hwf.add_not_remove K X h1 h2

/-- C28 at a concrete input: the reachable state in which 9 has asked to subscribe to
Tick. -/
theorem EventManager.staging_invariants_witness :
    (keys (nineQueued.pendingSubscriptions EventType.TickEvent)).Nodup ∧
    (nineQueued.pendingUnsubscriptions EventType.TickEvent).Nodup :=
  have h := EventManager.staging_invariants nineQueued reachable_nineQueued EventType.TickEvent
  ⟨h.1, h.2.1⟩

/-- C30: `shutdown()` leaves the three tables of every event kind and `anyPending` as they
were, whether or not an instance exists, so every subscription is still there and still
reported by `isSubscribed` afterwards. -/
theorem EventManager.shutdown_keeps_tables (p : Process) :
    (shutdown p).state.subscriptions = p.state.subscriptions ∧
    (shutdown p).state.pendingSubscriptions = p.state.pendingSubscriptions ∧
    (shutdown p).state.pendingUnsubscriptions = p.state.pendingUnsubscriptions ∧
    (shutdown p).state.anyPending = p.state.anyPending ∧
    (∀ X K, (shutdown p).state.isSubscribed X K = p.state.isSubscribed X K) ∧
    (shutdown p).eventManager = NULL := by
  unfold shutdown
  by_cases h : p.eventManager = NULL
  · simp [h]
  · simp [h]

/-- C30 at a concrete input: after `shutdown()` of a running session, subscriber 1 is still
reported as subscribed to Tick. -/
theorem EventManager.shutdown_keeps_tables_witness :
    (shutdown runningProcess).eventManager = NULL ∧
    (shutdown runningProcess).state.isSubscribed 1 EventType.TickEvent = true :=
  have h := EventManager.shutdown_keeps_tables runningProcess
  ⟨h.2.2.2.2.2, (h.2.2.2.2.1 1 EventType.TickEvent).trans (by decide)⟩

theorem get_of_instance (p : Process) (h : p.eventManager ≠ NULL) :
    get p = Except.ok (p.eventManager, p) := by
  simp [EventManager.get, h]

theorem getTimes_of_instance (n : Nat) (p : Process) (h : p.eventManager ≠ NULL) :
    getTimes n p = Except.ok (List.replicate n p.eventManager, p) := by
  induction n with
  | zero => rfl
  | succ k ih =>
    simp only [getTimes, get_of_instance p h, ih, List.replicate_succ]

theorem get_fresh (p : Process) (hc : p.mConstructed = false) (hp : p.eventManager = NULL) :
    get p = Except.ok (p.constructions + 1,
      { mConstructed := true, eventManager := p.constructions + 1,
        constructions := p.constructions + 1,
        state := { p.state with mIsPaused := false, mStepCount := -1 } }) := by
  simp [EventManager.get, construct, hc, hp]

/-- C25: running the constructor while `mConstructed` is true fails its assertion; and
from a process without instance (`mConstructed` false, pointer `NULL`), any number of
`get()` calls in a row succeed, run the constructor exactly once, at the first call, and
all return the same non-null pointer, to the instance initialised with
`mIsPaused = false` and `mStepCount = -1`. -/
theorem EventManager.get_constructs_once (p : Process) (n : Nat) :
    (p.mConstructed = true → construct p
      = Except.error "There is only one EventManager to rule them all!") ∧
    (p.mConstructed = false → p.eventManager = NULL →
      ∃ p1 : Process,
        getTimes (n + 1) p = Except.ok (List.replicate (n + 1) (p.constructions + 1), p1) ∧
        get p = Except.ok (p.constructions + 1, p1) ∧
        p.constructions + 1 ≠ NULL ∧
        p1.eventManager = p.constructions + 1 ∧
        p1.constructions = p.constructions + 1 ∧
        p1.mConstructed = true ∧
        p1.state.mIsPaused = false ∧
        p1.state.mStepCount = -1 ∧
        p1.state.subscriptions = p.state.subscriptions) := by
  refine ⟨?_, ?_⟩
  · intro h
    simp [construct, h]
  · intro hc hp
    have hg := get_fresh p hc hp
    refine ⟨_, ?_, hg, by simp [NULL], rfl, rfl, rfl, rfl, rfl, rfl⟩
    simp only [getTimes, hg]
    rw [getTimes_of_instance n _ (by simp [NULL])]
    simp [List.replicate_succ]

/-- C25 at a concrete input: three `get()` calls from program start return the same
pointer and construct once; constructing again during the session fails the assertion. -/
theorem EventManager.get_constructs_once_witness :
    (∃ p1 : Process, getTimes 3 freshProcess = Except.ok ([1, 1, 1], p1) ∧
      p1.constructions = 1 ∧ p1.state.mIsPaused = false ∧ p1.state.mStepCount = -1) ∧
    construct runningProcess = Except.error "There is only one EventManager to rule them all!" :=
  have h := EventManager.get_constructs_once freshProcess 2
  have h1 := EventManager.get_constructs_once runningProcess 0
  have ⟨p1, g1, _, _, _, g5, _, g7, g8, _⟩ := h.2 rfl rfl
  ⟨⟨p1, g1, g5, g7, g8⟩, h1.1 rfl⟩

/-- C26: from a process without instance, `get()` succeeds; after the following
`shutdown()` the pointer is `NULL` again but `mConstructed` is still true, since neither
`shutdown` nor the destructor resets it, so the next `get()` runs the constructor and its
assertion `!mConstructed` fails: no new instance is constructed. -/
theorem EventManager.get_after_shutdown (p : Process) (hc : p.mConstructed = false)
    (hp : p.eventManager = NULL) :
    ∃ (a : Ptr) (p1 : Process), get p = Except.ok (a, p1) ∧
      (shutdown p1).eventManager = NULL ∧
      (shutdown p1).mConstructed = true ∧
      get (shutdown p1) = Except.error "There is only one EventManager to rule them all!" := by
  refine ⟨_, _, get_fresh p hc hp, ?_, ?_, ?_⟩
  · simp [shutdown, NULL]
  · simp [shutdown, NULL]
  · simp [shutdown, EventManager.get, construct, NULL]

/-- C26 at the failing input: `get()`, `shutdown()`, `get()` from program start; the second
`get()` ends by the failed assertion. -/
theorem EventManager.get_after_shutdown_witness :
    ∃ (a : Ptr) (p1 : Process), get freshProcess = Except.ok (a, p1) ∧
      failed (get (shutdown p1)) = true :=
  have ⟨a, p1, h1, _, _, h4⟩ := EventManager.get_after_shutdown freshProcess rfl rfl
  ⟨a, p1, h1, by rw [h4]; rfl⟩

theorem wrapS32_pred (x : Int) (h1 : -2147483648 < x) (h2 : x < 2147483648) :
    wrapS32 (x - 1) = x - 1 := by
  unfold wrapS32
  omega

/-- The state after handlers that keep the live Tick list, the pause flag and the step
count has the same three. -/
theorem afterHandlers_quiet (scripts : Scripts) (K : EventType) (L subs : List Subscription)
    (hsub : ∀ s ∈ subs, s ∈ L)
    (hq : ∀ s ∈ L, ∀ em : EventManager,
      ((scripts s.subscriber K em).2).subscriptions K = em.subscriptions K ∧
      ((scripts s.subscriber K em).2).mIsPaused = em.mIsPaused ∧
      ((scripts s.subscriber K em).2).mStepCount = em.mStepCount)
    (em : EventManager) :
    (afterHandlers scripts K em subs).subscriptions K = em.subscriptions K ∧
    (afterHandlers scripts K em subs).mIsPaused = em.mIsPaused ∧
    (afterHandlers scripts K em subs).mStepCount = em.mStepCount := by
  induction subs generalizing em with
  | nil => exact ⟨rfl, rfl, rfl⟩
  | cons s rest ih =>
    simp only [afterHandlers, List.foldl_cons]
    have h1 := hq s (hsub s (List.mem_cons_self _ _)) em
    have h2 := ih (fun t ht => hsub t (List.mem_cons_of_mem _ ht)) ((scripts s.subscriber K em).2)
    simp only [afterHandlers] at h2
    exact ⟨h2.1.trans h1.1, h2.2.1.trans h1.2.1, h2.2.2.trans h1.2.2⟩

/-- One Tick fired through `fireEvent(TickEvent, deltaT)` when it is not suppressed and the
handlers keep the live Tick list, the pause flag and the step count: the call returns, every
live Tick subscriber has been run once, and `mStepCount` has been decremented once. -/
theorem tick_delivered (scripts : Scripts) (fuel : Nat) (w : World) (deltaT : Nat)
    (hsupp : w.em.suppressEvents EventType.TickEvent = false)
    (hq : ∀ s ∈ w.em.subscriptions EventType.TickEvent, ∀ em : EventManager,
      ((scripts s.subscriber EventType.TickEvent em).2).subscriptions EventType.TickEvent
        = em.subscriptions EventType.TickEvent ∧
      ((scripts s.subscriber EventType.TickEvent em).2).mIsPaused = em.mIsPaused ∧
      ((scripts s.subscriber EventType.TickEvent em).2).mStepCount = em.mStepCount)
    (hfuel : (w.em.subscriptions EventType.TickEvent).length < fuel) :
    ∃ w', fireEventDeltaT scripts fuel w EventType.TickEvent deltaT = Outcome.returned w' ∧
      w'.em.subscriptions EventType.TickEvent = w.em.subscriptions EventType.TickEvent ∧
      w'.em.mIsPaused = w.em.mIsPaused ∧
      w'.em.mStepCount = wrapS32 (w.em.mStepCount - 1) ∧
      invocations w'.trace = invocations w.trace ++ w.em.subscriptions EventType.TickEvent := by
  obtain ⟨w', h1, h2, h3, _⟩ := FireCall.run_stable scripts
    (FireCall.deltaT EventType.TickEvent deltaT) fuel w hsupp (fun s hs em => (hq s hs em).1)
    hfuel
  simp only [FireCall.run, FireCall.eventType, FireCall.skips, FireCall.sender?,
    Bool.not_false, List.filter_true, FireCall.enter, if_true] at h1 h2 h3
  have hq' := afterHandlers_quiet scripts EventType.TickEvent
    (w.em.subscriptions EventType.TickEvent) (w.em.subscriptions EventType.TickEvent)
    (fun s hs => hs) hq
    { w.em with mStepCount := wrapS32 (w.em.mStepCount - 1) }
  rw [← h2] at hq'
  exact ⟨w', h1, hq'.1, hq'.2.1, hq'.2.2, h3⟩

/-- A suppressed Tick: the call returns the world it was given. -/
theorem tick_suppressed (scripts : Scripts) (fuel : Nat) (w : World) (deltaT : Nat)
    (hsupp : w.em.suppressEvents EventType.TickEvent = true) :
    fireEventDeltaT scripts fuel w EventType.TickEvent deltaT = Outcome.returned w := by
  simp [fireEventDeltaT, hsupp]

theorem suppress_paused (em : EventManager) (K : EventType) (hp : em.mIsPaused = true)
    (hlive : em.subscriptions K ≠ []) :
    em.suppressEvents K = decide (em.mStepCount ≤ 0) := by
  unfold suppressEvents
  have hl : ((em.subscriptions K).length == 0) = false := by simpa using hlive
  simp [hl, hp]

/-- Ticks fired in a row while paused with `m` steps left, no more of them than `m`: all
are delivered and each takes one step. -/
theorem fireTicks_paused (scripts : Scripts) (fuel : Nat) (L : List Subscription)
    (hL : L ≠ [])
    (hq : ∀ s ∈ L, ∀ em : EventManager,
      ((scripts s.subscriber EventType.TickEvent em).2).subscriptions EventType.TickEvent
        = em.subscriptions EventType.TickEvent ∧
      ((scripts s.subscriber EventType.TickEvent em).2).mIsPaused = em.mIsPaused ∧
      ((scripts s.subscriber EventType.TickEvent em).2).mStepCount = em.mStepCount)
    (hfuel : L.length < fuel) (deltaTs : List Nat) (m : Nat) (w : World)
    (hlive : w.em.subscriptions EventType.TickEvent = L)
    (hp : w.em.mIsPaused = true) (hm : w.em.mStepCount = (m : Int))
    (hrange : (m : Int) < 2147483648) (hlen : deltaTs.length ≤ m) :
    ∃ w', fireTicks scripts fuel deltaTs w = Outcome.returned w' ∧
      w'.em.subscriptions EventType.TickEvent = L ∧
      w'.em.mIsPaused = true ∧
      w'.em.mStepCount = (m : Int) - (deltaTs.length : Int) ∧
      invocations w'.trace
        = invocations w.trace ++ (List.replicate deltaTs.length L).flatten := by
  induction deltaTs generalizing m w with
  | nil => exact ⟨w, rfl, hlive, hp, by simp [hm], by simp⟩
  | cons d rest ih =>
    have hmpos : 0 < m := by simp only [List.length_cons] at hlen; omega
    have hsupp : w.em.suppressEvents EventType.TickEvent = false := by
      rw [suppress_paused w.em _ hp (by rw [hlive]; exact hL), hm]
      simp; omega
    obtain ⟨w1, g1, g2, g3, g4, g5⟩ := tick_delivered scripts fuel w d hsupp
      (by rw [hlive]; exact hq) (by rw [hlive]; exact hfuel)
    have hm1 : w1.em.mStepCount = ((m - 1 : Nat) : Int) := by
      rw [g4, hm, wrapS32_pred _ (by omega) hrange]
      omega
    obtain ⟨w', k1, k2, k3, k4, k5⟩ := ih (m - 1) w1 (g2.trans hlive) (g3.trans hp) hm1
      (by omega) (by simp only [List.length_cons] at hlen; omega)
    refine ⟨w', ?_, k2, k3, ?_, ?_⟩
    · simp only [fireTicks, g1]; exact k1
    · rw [k4]; simp only [List.length_cons]; omega
    · rw [k5, g5, hlive]
      simp [List.replicate_succ]

/-- C22: paused, with at least one live Tick subscriber and handlers that leave the live
Tick list, the pause flag and the step count alone. After `addSteps(n)` (`n` a
non-negative `S32`), any `k <= n` Tick firings in a row are all delivered: each runs every
live Tick subscriber once and takes exactly one step, so `mStepCount` is `n - k`
afterwards; after the `n`-th, a further Tick firing is suppressed and changes nothing,
`mStepCount` staying 0. And with `mStepCount = -1` while paused, a Tick firing is
suppressed. -/
theorem EventManager.pause_step_semantics (scripts : Scripts) (fuel : Nat) (w : World)
    (n : Nat) (deltaTs : List Nat)
    (hp : w.em.mIsPaused = true)
    (hlive : w.em.subscriptions EventType.TickEvent ≠ [])
    (hn : (n : Int) < 2147483648)
    (hq : ∀ s ∈ w.em.subscriptions EventType.TickEvent, ∀ em : EventManager,
      ((scripts s.subscriber EventType.TickEvent em).2).subscriptions EventType.TickEvent
        = em.subscriptions EventType.TickEvent ∧
      ((scripts s.subscriber EventType.TickEvent em).2).mIsPaused = em.mIsPaused ∧
      ((scripts s.subscriber EventType.TickEvent em).2).mStepCount = em.mStepCount)
    (hfuel : (w.em.subscriptions EventType.TickEvent).length < fuel)
    (hlen : deltaTs.length ≤ n) :
    ∃ w', fireTicks scripts fuel deltaTs { w with em := w.em.addSteps n }
        = Outcome.returned w' ∧
      w'.em.mStepCount = (n : Int) - (deltaTs.length : Int) ∧
      w'.em.mIsPaused = true ∧
      invocations w'.trace = invocations w.trace ++
        (List.replicate deltaTs.length (w.em.subscriptions EventType.TickEvent)).flatten ∧
      (deltaTs.length = n → ∀ deltaT,
        fireEventDeltaT scripts fuel w' EventType.TickEvent deltaT = Outcome.returned w' ∧
        w'.em.mStepCount = 0) ∧
      (w.em.mStepCount = -1 → ∀ deltaT,
        fireEventDeltaT scripts fuel w EventType.TickEvent deltaT = Outcome.returned w) := by
  have hadd : (w.em.addSteps n).subscriptions = w.em.subscriptions ∧
      (w.em.addSteps n).mIsPaused = true ∧ (w.em.addSteps n).mStepCount = (n : Int) := by
    simp [addSteps, hp]
  obtain ⟨w', h1, h2, h3, h4, h5⟩ := fireTicks_paused scripts fuel
    (w.em.subscriptions EventType.TickEvent) hlive hq hfuel deltaTs n
    { w with em := w.em.addSteps n } (by rw [hadd.1]) hadd.2.1 hadd.2.2 hn hlen
  refine ⟨w', h1, h4, h3, h5, ?_, ?_⟩
  · intro hk deltaT
    have h0 : w'.em.mStepCount = 0 := by rw [h4, hk]; omega
    refine ⟨tick_suppressed scripts fuel w' deltaT ?_, h0⟩
    rw [suppress_paused w'.em _ h3 (by rw [h2]; exact hlive), h0]
    simp
  · intro hminus deltaT
    apply tick_suppressed
    rw [suppress_paused w.em _ hp hlive, hminus]
    simp

/-- C22 at a concrete input: the live Tick list 1, 2, 3, paused; after `addSteps(2)` two
Ticks are delivered, the step count ends at 0 and a third Tick is suppressed. -/
theorem EventManager.pause_step_semantics_witness :
    ∃ w', fireTicks quietScripts 4 [16, 16]
        { em := (threeLive.setPaused true).addSteps 2, trace := [] } = Outcome.returned w' ∧
      w'.em.mStepCount = 0 ∧
      keys (invocations w'.trace) = [1, 2, 3, 1, 2, 3] ∧
      fireEventDeltaT quietScripts 4 w' EventType.TickEvent 16 = Outcome.returned w' :=
  have ⟨w', h1, h2, _, h4, h5, _⟩ := EventManager.pause_step_semantics quietScripts 4
    { em := threeLive.setPaused true, trace := [] } 2 [16, 16] rfl (by decide) (by decide)
    (fun _ _ _ => ⟨rfl, rfl, rfl⟩) (by decide) (by decide)
  ⟨w', h1, by simpa using h2, by rw [h4]; decide, (h5 rfl 16).1⟩

/-- C23, as stated, fails: the state with live Tick list 1, 2, 3 is not paused and its
step count is -1; one `fireEvent(TickEvent, deltaT)` leaves the step count at -2. -/
theorem EventManager.tick_unpaused_counterexample :
    threeLive.mIsPaused = false ∧
    threeLive.mStepCount = -1 ∧
    ((fireEventDeltaT quietScripts 4 threeLiveWorld EventType.TickEvent 16).world?.map
      (fun w => w.em.mStepCount)) = some (-2) ∧
    ((fireEventDeltaT quietScripts 4 threeLiveWorld EventType.TickEvent 16).world?.map
      (fun w => w.em.mStepCount)) ≠ some threeLive.mStepCount :=
  ⟨by decide, by decide, by decide, by decide⟩

/-- C23, amended: a Tick dispatch through `fireEvent(TickEvent, deltaT)` takes one step
whenever it is not suppressed, paused or not: with handlers that leave the live Tick list
and the step count alone, a suppressed dispatch leaves `mStepCount` unchanged and a
delivered one leaves it decremented by exactly one (in `S32` arithmetic); and while not
paused, every Tick with a live subscriber is delivered, so it is decremented then too. -/
theorem EventManager.tick_decrements_when_delivered (scripts : Scripts) (fuel : Nat)
    (w : World) (deltaT : Nat)
    (hq : ∀ s ∈ w.em.subscriptions EventType.TickEvent, ∀ em : EventManager,
      ((scripts s.subscriber EventType.TickEvent em).2).subscriptions EventType.TickEvent
        = em.subscriptions EventType.TickEvent ∧
      ((scripts s.subscriber EventType.TickEvent em).2).mIsPaused = em.mIsPaused ∧
      ((scripts s.subscriber EventType.TickEvent em).2).mStepCount = em.mStepCount)
    (hfuel : (w.em.subscriptions EventType.TickEvent).length < fuel) :
    (w.em.suppressEvents EventType.TickEvent = true →
      fireEventDeltaT scripts fuel w EventType.TickEvent deltaT = Outcome.returned w) ∧
    (w.em.suppressEvents EventType.TickEvent = false →
      ∃ w', fireEventDeltaT scripts fuel w EventType.TickEvent deltaT = Outcome.returned w' ∧
        w'.em.mStepCount = wrapS32 (w.em.mStepCount - 1) ∧
        (-2147483648 < w.em.mStepCount → w.em.mStepCount < 2147483648 →
          w'.em.mStepCount = w.em.mStepCount - 1)) ∧
    (w.em.mIsPaused = false → w.em.subscriptions EventType.TickEvent ≠ [] →
      w.em.suppressEvents EventType.TickEvent = false) := by
  refine ⟨tick_suppressed scripts fuel w deltaT, ?_, ?_⟩
  · intro hsupp
    obtain ⟨w', h1, _, _, h4, _⟩ := tick_delivered scripts fuel w deltaT hsupp hq hfuel
    exact ⟨w', h1, h4, fun hlo hhi => by rw [h4, wrapS32_pred _ hlo hhi]⟩
  · intro hp hlive
    unfold suppressEvents
    have hl : ((w.em.subscriptions EventType.TickEvent).length == 0) = false := by
      simpa using hlive
    simp [hl, hp]

/-- C23 amended, at a concrete input: the unpaused state with live Tick list 1, 2, 3 and
step count -1; the Tick is delivered and the step count becomes -2. -/
theorem EventManager.tick_decrements_when_delivered_witness :
    ∃ w', fireEventDeltaT quietScripts 4 threeLiveWorld EventType.TickEvent 16
        = Outcome.returned w' ∧ w'.em.mStepCount = -2 :=
  have h := EventManager.tick_decrements_when_delivered quietScripts 4 threeLiveWorld 16
    (fun _ _ _ => ⟨rfl, rfl, rfl⟩) (by decide)
  have ⟨w', h1, _, h3⟩ := h.2.1 (h.2.2 (by decide) (by decide))
  ⟨w', h1, (h3 (by decide) (by decide)).trans (by decide)⟩

/-- C27: pausing does not touch the step count. With a live Tick subscriber, right after
`setPaused(true)`, or after `togglePauseStatus()` from the unpaused state, Tick is
suppressed exactly when `mStepCount <= 0`; neither unpausing nor pausing resets the count,
so what is left of a budget granted during an earlier pause still lets Ticks through
after pause is hit again. -/
theorem EventManager.pause_keeps_step_budget (em : EventManager)
    (hlive : em.subscriptions EventType.TickEvent ≠ []) :
    ((em.setPaused true).suppressEvents EventType.TickEvent = true ↔ em.mStepCount ≤ 0) ∧
    (em.mIsPaused = false →
      (em.togglePauseStatus.suppressEvents EventType.TickEvent = true ↔ em.mStepCount ≤ 0)) ∧
    (∀ b, (em.setPaused b).mStepCount = em.mStepCount) ∧
    em.togglePauseStatus.mStepCount = em.mStepCount := by
  refine ⟨?_, ?_, fun _ => rfl, rfl⟩
  · rw [suppress_paused (em.setPaused true) _ rfl hlive]
    simp [setPaused]
  · intro hp
    rw [suppress_paused em.togglePauseStatus _ (by simp [togglePauseStatus, hp]) hlive]
    simp [togglePauseStatus]

/-- C27 at the failing input: live Tick list 1, 2, 3; `setPaused(true)`, `addSteps(3)`,
`setPaused(false)`, `setPaused(true)`. Pause has just been hit and `addSteps` has not been
called since, yet Tick is not suppressed: the next Tick runs the handlers of 1, 2, 3. -/
theorem EventManager.pause_keeps_step_budget_witness :
    (((threeLive.setPaused true).addSteps 3).setPaused false).mIsPaused = false ∧
    pausedAgain = (((threeLive.setPaused true).addSteps 3).setPaused false).setPaused true ∧
    pausedAgain.mIsPaused = true ∧
    pausedAgain.suppressEvents EventType.TickEvent ≠ true ∧
    ((fireEventDeltaT quietScripts 4 { em := pausedAgain, trace := [] } EventType.TickEvent
      16).world?.map (fun w => keys (invocations w.trace))) = some [1, 2, 3] :=
  ⟨by decide, rfl, by decide,
    fun h => absurd ((EventManager.pause_keeps_step_budget
      (((threeLive.setPaused true).addSteps 3).setPaused false) (by decide)).1.mp h)
      (by decide),
    by decide⟩

/-- C29: the live list of `E` is `[a, b, c]`, events are not suppressed, the handler of
`a` performs `unsubscribeImmediate(a, E)` and the handler of `b` changes nothing. Then
`erase_fast` moves `c` into slot 0, and one `fireEvent(E)` runs the handlers of `a` and
`b` only: `c` is live before and after the firing and is not notified. -/
theorem EventManager.fireEvent_immediate_removal_skips (scripts : Scripts) (E : EventType)
    (a b c : Subscription) (fuel : Nat) (w : World)
    (hlive : w.em.subscriptions E = [a, b, c])
    (hsupp : w.em.suppressEvents E = false)
    (ha : ∀ em : EventManager,
      (scripts a.subscriber E em).2 = em.unsubscribeImmediate a.subscriber E)
    (hb : ∀ em : EventManager, (scripts b.subscriber E em).2 = em)
    (hca : c ≠ a) (hcb : c ≠ b) (hfuel : 2 < fuel) :
    ∃ w', fireEvent scripts fuel w E = Outcome.returned w' ∧
      invocations w'.trace = invocations w.trace ++ [a, b] ∧
      c ∉ [a, b] ∧
      c ∈ w.em.subscriptions E ∧
      w'.em.subscriptions E = [c, b] ∧
      c ∈ w'.em.subscriptions E := by
  obtain ⟨k, rfl⟩ : ∃ k, fuel = k + 3 := ⟨fuel - 3, by omega⟩
  -- the handler of `a`
  obtain ⟨r1, w1, f1, e1, i1, _⟩ := fire_normal scripts a.subscriber E a.context (w.pushAll [])
  rw [pushAll_em, ha] at e1
  have hlive1 : w1.em.subscriptions E = [c, b] := by
    rw [e1, (unsubscribeImmediate_fields w.em a.subscriber E).1, setAt_same, hlive]
    simp [removeFirst, firstIndex, erase_fast]
  -- the handler of `b`
  obtain ⟨r2, w2, f2, e2, i2, _⟩ := fire_normal scripts b.subscriber E b.context (w1.pushAll [])
  rw [pushAll_em, hb] at e2
  have hlive2 : w2.em.subscriptions E = [c, b] := by rw [e2, hlive1]
  refine ⟨w2, ?_, ?_, ?_, ?_, hlive2, ?_⟩
  · unfold fireEvent
    simp only [hsupp, Bool.false_eq_true, if_false]
    unfold dispatchLoop
    simp only [hlive, List.getElem?_cons_zero, Bool.false_eq_true, if_false, f1]
    unfold dispatchLoop
    simp only [hlive1, List.getElem?_cons_succ, List.getElem?_cons_zero, Bool.false_eq_true,
      if_false, f2]
    unfold dispatchLoop
    simp [hlive2]
  · rw [i2, invocations_pushAll, i1, invocations_pushAll]
    simp
  · simp [hca, hcb]
  · rw [hlive]; simp
  · rw [hlive2]; simp

/-- C29 at a concrete input: live Tick list 1, 2, 3, where the handler of 1 removes 1 at
once; the firing runs 1 and 2, and 3 is live afterwards without having been notified. -/
theorem EventManager.fireEvent_immediate_removal_skips_witness :
    ∃ w', fireEvent firstLeavesAtOnce 3 threeLiveWorld EventType.TickEvent
        = Outcome.returned w' ∧
      invocations w'.trace = invocations threeLiveWorld.trace ++
        [{ subscriber := 1, context := ScriptContext.RobotContext },
         { subscriber := 2, context := ScriptContext.RobotContext }] ∧
      w'.em.subscriptions EventType.TickEvent =
        [{ subscriber := 3, context := ScriptContext.LevelgenContext },
         { subscriber := 2, context := ScriptContext.RobotContext }] :=
  have ⟨w', h1, h2, _, _, h5, _⟩ := EventManager.fireEvent_immediate_removal_skips
    firstLeavesAtOnce EventType.TickEvent
    { subscriber := 1, context := ScriptContext.RobotContext }
    { subscriber := 2, context := ScriptContext.RobotContext }
    { subscriber := 3, context := ScriptContext.LevelgenContext } 3 threeLiveWorld
    (by decide) (by decide) (fun _ => rfl) (fun _ => rfl) (by decide) (by decide) (by decide)
  ⟨w', h1, h2, h5⟩

end Zap
